import Mathlib

set_option maxRecDepth 8000

/-!
Shallow embedding of the BoberCrawler crawl-policy engine
(src/BoberCrawler.py and src/bober_crawler/cli.py).

Python strings are modelled as lists of characters (`Str`), and the pieces of
the Python standard library that the crawler relies on (`urllib.parse.urlsplit`,
`urlparse`, `urljoin`, `urlunparse`, `urldefrag`, `unquote`, and the `str`
methods `strip`, `lower`, `split`, `startswith`, `count`, substring testing and
`list.sort`) are embedded below, restricted to the behaviour the crawler
exercises: no bracketed IPv6 hosts, ASCII case mapping.  The browser-automation
collaborator (Playwright) is out of scope per the specification and is modelled
as an oracle `Fetch` that either fails (an exception out of `page.goto`) or
returns the list of links that extraction produced from the rendered page.
-/

abbrev Str := List Char

def str (s : String) : Str := s.data

/-- Python `s.lower()` (ASCII case mapping). -/
def pyLower (s : Str) : Str := s.map Char.toLower

/-- Characters stripped by Python `str.strip()` with no arguments (ASCII part). -/
def isPySpace (c : Char) : Bool :=
  c = ' ' || c = '\t' || c = '\n' || c = '\r' || c = '\x0b' || c = '\x0c'

def lstripBy (p : Char → Bool) (s : Str) : Str := s.dropWhile p

def rstripBy (p : Char → Bool) (s : Str) : Str := (s.reverse.dropWhile p).reverse

/-- Python `s.strip()`. -/
def pyStrip (s : Str) : Str := rstripBy isPySpace (lstripBy isPySpace s)

/-- Python `s.rstrip("/")` (also `re.sub(r'/+$', '', s)`). -/
def rstripSlash (s : Str) : Str := rstripBy (fun c => c = '/') s

/-- Python `s.strip("/")`. -/
def stripSlash (s : Str) : Str := rstripBy (fun c => c = '/') (lstripBy (fun c => c = '/') s)

/-- Python `s.split(c, 1)` for a `c` known to occur in `s`:
the part before the first `c` and the part after it. -/
def splitFirst (c : Char) (s : Str) : Str × Str :=
  (s.takeWhile (fun a => a ≠ c), (s.dropWhile (fun a => a ≠ c)).drop 1)

/-- The suffix of `s` after the last occurrence of `c`
(all of `s` when `c` does not occur): Python `s.rpartition(c)[2]`. -/
def afterLast (c : Char) (s : Str) : Str :=
  (s.reverse.takeWhile (fun a => a ≠ c)).reverse

/-- The prefix of `s` up to and including the last occurrence of `c`
(empty when `c` does not occur). -/
def uptoLast (c : Char) (s : Str) : Str :=
  (s.reverse.dropWhile (fun a => a ≠ c)).reverse

/-- Python substring test `needle in hay`. -/
def containsStr (hay needle : Str) : Bool :=
  match hay with
  | [] => needle.isPrefixOf []
  | _ :: t => needle.isPrefixOf hay || containsStr t needle

/-- Python string comparison `a < b` (lexicographic on code points). -/
def strLtB : Str → Str → Bool
  | [], [] => false
  | [], _ :: _ => true
  | _ :: _, [] => false
  | a :: as, b :: bs => if a < b then true else if b < a then false else strLtB as bs

/-- Insert `x` after every element `y` of an ascending list with `le y x`:
the insertion step of a stable insertion sort. -/
def insertLe (le : Str → Str → Bool) (x : Str) : List Str → List Str
  | [] => [x]
  | y :: ys => if le y x then y :: insertLe le x ys else x :: y :: ys

/-- Stable sort (Python `list.sort`), as a left fold of stable insertions. -/
def sortLe (le : Str → Str → Bool) (l : List Str) : List Str :=
  l.foldl (fun acc x => insertLe le x acc) []

/-- Python `list.sort()` on strings. -/
def pySorted (l : List Str) : List Str := sortLe (fun a b => !(strLtB b a)) l

/-- Python `set.add`: sets of strings are modelled as duplicate-free lists;
only membership and size are ever observed, so insertion order is immaterial. -/
def pyAdd (s : List Str) (x : Str) : List Str := if s.contains x then s else s ++ [x]

/- ---------------------------------------------------------------------------
Percent-decoding: `urllib.parse.unquote(s)` with the default UTF-8 codec and
`errors='replace'`.  Within ASCII spans each `%XX` (hex) becomes a byte and
every other ASCII character becomes its own code; the accumulated byte run is
then UTF-8-decoded with U+FFFD replacement.  Non-ASCII characters pass through
unchanged and delimit the byte runs.
--------------------------------------------------------------------------- -/

def isHexDigitCh (c : Char) : Bool :=
  c.isDigit || ('a' ≤ c && c ≤ 'f') || ('A' ≤ c && c ≤ 'F')

def hexVal (c : Char) : Nat :=
  if c.isDigit then c.toNat - '0'.toNat
  else if 'a' ≤ c && c ≤ 'f' then c.toNat - 'a'.toNat + 10
  else c.toNat - 'A'.toNat + 10

def replacementChar : Char := Char.ofNat 0xFFFD

def isContByte (b : Nat) : Bool := 0x80 ≤ b && b ≤ 0xBF

/-- UTF-8 decoding with U+FFFD substitution for malformed sequences
(the WHATWG algorithm used by Python's `errors='replace'`).  The `fuel`
argument makes the recursion structural; every step consumes at least one
byte, so `fuel = length` suffices and the zero-fuel case is unreachable. -/
def utf8DecGo : Nat → List Nat → Str
  | 0, _ => []
  | _ + 1, [] => []
  | fuel + 1, b :: rest =>
    if b < 0x80 then Char.ofNat b :: utf8DecGo fuel rest
    else if 0xC2 ≤ b && b ≤ 0xDF then
      match rest with
      | c :: r2 =>
        if isContByte c then Char.ofNat ((b - 0xC0) * 0x40 + (c - 0x80)) :: utf8DecGo fuel r2
        else replacementChar :: utf8DecGo fuel (c :: r2)
      | [] => [replacementChar]
    else if 0xE0 ≤ b && b ≤ 0xEF then
      match rest with
      | c :: r2 =>
        if (if b = 0xE0 then 0xA0 ≤ c && c ≤ 0xBF
            else if b = 0xED then 0x80 ≤ c && c ≤ 0x9F
            else isContByte c) then
          match r2 with
          | d :: r3 =>
            if isContByte d then
              Char.ofNat ((b - 0xE0) * 0x1000 + (c - 0x80) * 0x40 + (d - 0x80)) :: utf8DecGo fuel r3
            else replacementChar :: utf8DecGo fuel (d :: r3)
          | [] => [replacementChar]
        else replacementChar :: utf8DecGo fuel (c :: r2)
      | [] => [replacementChar]
    else if 0xF0 ≤ b && b ≤ 0xF4 then
      match rest with
      | c :: r2 =>
        if (if b = 0xF0 then 0x90 ≤ c && c ≤ 0xBF
            else if b = 0xF4 then 0x80 ≤ c && c ≤ 0x8F
            else isContByte c) then
          match r2 with
          | d :: r3 =>
            if isContByte d then
              match r3 with
              | e :: r4 =>
                if isContByte e then
                  Char.ofNat ((b - 0xF0) * 0x40000 + (c - 0x80) * 0x1000 +
                    (d - 0x80) * 0x40 + (e - 0x80)) :: utf8DecGo fuel r4
                else replacementChar :: utf8DecGo fuel (e :: r4)
              | [] => [replacementChar]
            else replacementChar :: utf8DecGo fuel (d :: r3)
          | [] => [replacementChar]
        else replacementChar :: utf8DecGo fuel (c :: r2)
      | [] => [replacementChar]
    else replacementChar :: utf8DecGo fuel rest

def utf8Dec (l : List Nat) : Str := utf8DecGo l.length l

/-- The scanning loop of `unquote`: ASCII characters (and decoded `%XX` pairs)
accumulate as bytes (in reverse) and are flushed through the UTF-8 decoder at
non-ASCII characters and at the end of the string.  Fuel-structural as above. -/
def unquoteWalkGo : Nat → Str → List Nat → Str
  | 0, _, buf => utf8Dec buf.reverse
  | _ + 1, [], buf => utf8Dec buf.reverse
  | fuel + 1, c :: rest, buf =>
    if c = '%' then
      match rest with
      | a :: b :: r2 =>
        if isHexDigitCh a && isHexDigitCh b then
          unquoteWalkGo fuel r2 ((hexVal a * 16 + hexVal b) :: buf)
        else unquoteWalkGo fuel (a :: b :: r2) (0x25 :: buf)
      | _ => unquoteWalkGo fuel rest (0x25 :: buf)
    else if c.toNat < 0x80 then unquoteWalkGo fuel rest (c.toNat :: buf)
    else utf8Dec buf.reverse ++ c :: unquoteWalkGo fuel rest []

def unquoteWalk (s : Str) (buf : List Nat) : Str := unquoteWalkGo s.length s buf

/-- Python `urllib.parse.unquote` (UTF-8, `errors='replace'`).
Like CPython, a string without `%` is returned unchanged. -/
def unquote (s : Str) : Str :=
  if s.contains '%' then unquoteWalk s [] else s

/- ---------------------------------------------------------------------------
urllib.parse: urlsplit / urlparse / urlunsplit / urlunparse / urldefrag /
urljoin and the `hostname` accessor, following CPython.  The IPv6 bracket
validation and the netloc NFKC check are omitted: no URL in this development
contains a bracketed host.
--------------------------------------------------------------------------- -/

structure SplitR where
  scheme : Str
  netloc : Str
  path : Str
  query : Str
  fragment : Str
deriving DecidableEq

structure ParseR where
  scheme : Str
  netloc : Str
  path : Str
  params : Str
  query : Str
  fragment : Str
deriving DecidableEq

/-- CPython removes ASCII tab, CR and LF anywhere in the URL. -/
def cleanUrlChars (s : Str) : Str :=
  s.filter (fun c => !(c = '\t' || c = '\r' || c = '\n'))

/-- CPython strips WHATWG C0-control-or-space characters from the left. -/
def lstripControl (s : Str) : Str := s.dropWhile (fun c => c.toNat ≤ 0x20)

def isSchemeChar (c : Char) : Bool :=
  c.isAlpha || c.isDigit || c = '+' || c = '-' || c = '.'

/-- Python `str.isascii` for a single character. -/
def isAsciiCh (c : Char) : Bool := c.toNat ≤ 0x7F

/-- Scheme detection of `urlsplit`: chars before the first `:` must be a
nonempty run of scheme characters starting with an ASCII letter; otherwise the
supplied default scheme is kept and the URL is left whole. -/
def schemeSplit (url dscheme : Str) : Str × Str :=
  let pre := url.takeWhile (fun c => c ≠ ':')
  if pre.length < url.length && 0 < pre.length &&
      (match url with | c :: _ => isAsciiCh c && c.isAlpha | [] => false) &&
      pre.all isSchemeChar
  then (pyLower pre, url.drop (pre.length + 1))
  else (dscheme, url)

def netlocDelim (c : Char) : Bool := c = '/' || c = '?' || c = '#'

/-- `_splitnetloc`: when the remainder starts with `//`, the netloc runs to
the first `/`, `?` or `#`. -/
def netlocSplit (u : Str) : Str × Str :=
  if (str "//").isPrefixOf u then
    ((u.drop 2).takeWhile (fun c => !netlocDelim c),
     (u.drop 2).dropWhile (fun c => !netlocDelim c))
  else ([], u)

/-- `if ch in url: url.split(ch, 1)`, the common form of the fragment and
query splits. -/
def condSplit (ch : Char) (u : Str) : Str × Str :=
  if u.contains ch then splitFirst ch u else (u, [])

/-- `if '#' in url: url, fragment = url.split('#', 1)`. -/
def fragSplit (u : Str) : Str × Str := condSplit '#' u

/-- `if '?' in url: url, query = url.split('?', 1)`. -/
def querySplit (u : Str) : Str × Str := condSplit '?' u

/-- `urllib.parse.urlsplit(url, scheme)` with `allow_fragments=True`. -/
def urlsplit (url0 dscheme : Str) : SplitR :=
  let url1 := cleanUrlChars (lstripControl url0)
  let sp := schemeSplit url1 dscheme
  let np := netlocSplit sp.2
  let uf := fragSplit np.2
  let uq := querySplit uf.1
  ⟨sp.1, np.1, uq.1, uq.2, uf.2⟩

/-- `urllib.parse._splitparams`: split `;params` off the last path segment.
`find(';', rfind('/'))` is the first `;` inside the final segment. -/
def splitparamsFn (u : Str) : Str × Str :=
  if u.contains '/' then
    let b := afterLast '/' u
    if b.contains ';' then (uptoLast '/' u ++ (splitFirst ';' b).1, (splitFirst ';' b).2)
    else (u, [])
  else splitFirst ';' u

/-- The params step of `urlparse`: `_splitparams` when the path contains `;`,
otherwise `params = ''`. -/
def splitTop (u : Str) : Str × Str :=
  if u.contains ';' then splitparamsFn u else (u, [])

/-- `urllib.parse.urlparse(url, scheme)`. -/
def urlparse (url dscheme : Str) : ParseR :=
  let s := urlsplit url dscheme
  ⟨s.scheme, s.netloc, (splitTop s.path).1, (splitTop s.path).2, s.query, s.fragment⟩

/-- The `hostname` accessor of a parse result: the part of the netloc after
the last `@` and before the port, lower-cased; `None` when empty. -/
def hostnameOf (netloc : Str) : Option Str :=
  let hostinfo := afterLast '@' netloc
  let h := if hostinfo.contains '[' then (splitFirst ']' (splitFirst '[' hostinfo).2).1
    else (splitFirst ':' hostinfo).1
  if h = [] then none else some (pyLower h)

/-- `urllib.parse.urlunsplit`. -/
def urlunsplit (p : SplitR) : Str :=
  let u0 := p.path
  let u1 := if p.netloc ≠ [] ∨ (str "//").isPrefixOf u0 then
      str "//" ++ p.netloc ++
        (match u0 with
         | [] => u0
         | c :: _ => if c ≠ '/' then '/' :: u0 else u0)
    else u0
  let u2 := if p.scheme ≠ [] then p.scheme ++ ':' :: u1 else u1
  let u3 := if p.query ≠ [] then u2 ++ '?' :: p.query else u2
  if p.fragment ≠ [] then u3 ++ '#' :: p.fragment else u3

/-- Reattach `;params` to the path (the first step of `urlunparse`). -/
def joinParams (path params : Str) : Str :=
  if params ≠ [] then path ++ ';' :: params else path

/-- `urllib.parse.urlunparse`, also the `geturl()` of a parse result. -/
def urlunparse (p : ParseR) : Str :=
  urlunsplit ⟨p.scheme, p.netloc, joinParams p.path p.params, p.query, p.fragment⟩

/-- `urllib.parse.urldefrag(url)[0]`. -/
def urldefrag (url : Str) : Str :=
  if url.contains '#' then
    let p := urlparse url []
    urlunparse ⟨p.scheme, p.netloc, p.path, p.params, p.query, []⟩
  else url

def uses_relative : List Str :=
  [str "", str "ftp", str "http", str "gopher", str "nntp", str "imap",
   str "wais", str "file", str "https", str "shttp", str "mms",
   str "prospero", str "rtsp", str "rtspu", str "sftp",
   str "svn", str "svn+ssh", str "ws", str "wss"]

def uses_netloc : List Str :=
  [str "", str "ftp", str "http", str "gopher", str "nntp", str "telnet",
   str "imap", str "wais", str "file", str "mms", str "https", str "shttp",
   str "snews", str "prospero", str "rtsp", str "rtspu", str "rsync",
   str "svn", str "svn+ssh", str "sftp", str "nfs", str "git", str "git+ssh",
   str "ws", str "wss", str "itms-services"]

/-- `segments[1:-1] = filter(None, segments[1:-1])`: drop empty segments from
everything but the first and last position. -/
def filterMiddle (l : List Str) : List Str :=
  match l with
  | [] => []
  | [x] => [x]
  | x :: rest => x :: ((rest.dropLast.filter (fun s => s ≠ [])) ++ [rest.getLastD []])

/-- The dot-segment resolution loop of `urljoin` (`..` pops, `.` is skipped). -/
def resolveSegs (acc : List Str) : List Str → List Str
  | [] => acc
  | seg :: rest =>
    if seg = str ".." then resolveSegs acc.dropLast rest
    else if seg = str "." then resolveSegs acc rest
    else resolveSegs (acc ++ [seg]) rest

/-- `urllib.parse.urljoin(base, url)`. -/
def urljoin (base url : Str) : Str :=
  if base = [] then url
  else if url = [] then base
  else
    let b := urlparse base []
    let u := urlparse url b.scheme
    if ¬ (u.scheme = b.scheme) ∨ ¬ uses_relative.contains u.scheme then url
    else
      let inNetloc := uses_netloc.contains u.scheme
      if inNetloc ∧ u.netloc ≠ [] then urlunparse u
      else
        let netloc := if inNetloc then b.netloc else u.netloc
        if u.path = [] ∧ u.params = [] then
          urlunparse ⟨u.scheme, netloc, b.path, b.params,
            (if u.query = [] then b.query else u.query), u.fragment⟩
        else
          let base_parts0 := b.path.splitOn '/'
          let base_parts := if base_parts0.getLastD [] ≠ [] then base_parts0.dropLast else base_parts0
          let segments :=
            match u.path with
            | '/' :: _ => u.path.splitOn '/'
            | _ => filterMiddle (base_parts ++ u.path.splitOn '/')
          let resolved0 := resolveSegs [] segments
          let resolved := if segments.getLastD [] = str "." ∨ segments.getLastD [] = str ".."
            then resolved0 ++ [[]] else resolved0
          let joined := List.intercalate (str "/") resolved
          urlunparse ⟨u.scheme, netloc, (if joined = [] then str "/" else joined),
            u.params, u.query, u.fragment⟩

/- ---------------------------------------------------------------------------
src/BoberCrawler.py
--------------------------------------------------------------------------- -/

/-- `is_same_scope(url, scope_host)`: the URL's hostname equals the scope host. -/
def is_same_scope (url scope_host : Str) : Bool :=
  hostnameOf (urlparse url []).netloc == some scope_host

/-- `validate_start_in_scope(start_url, scope_host)` (same test as
`is_same_scope`, duplicated in the source). -/
def validate_start_in_scope (start_url scope_host : Str) : Bool :=
  hostnameOf (urlparse start_url []).netloc == some scope_host

/-- The anchored regex `https?:/[^/]` of `normalize_url`: the link starts with
`http:/` or `https:/` followed by one more character that is not `/`. -/
def repairMatch (link : Str) : Bool :=
  ((str "http:/").isPrefixOf link &&
    (match link.drop 6 with | c :: _ => c ≠ '/' | [] => false))
  || ((str "https:/").isPrefixOf link &&
    (match link.drop 7 with | c :: _ => c ≠ '/' | [] => false))

/-- Python `s.replace(pat, rep, 1)`: replace the first occurrence only. -/
def replaceFirst (pat rep s : Str) : Str :=
  if pat.isPrefixOf s then rep ++ s.drop pat.length
  else match s with
  | [] => []
  | c :: t => c :: replaceFirst pat rep t

/-- `normalize_url(base, link)`: resolve, defragment, percent-decode and
re-serialize with a lower-cased netloc; `None` on empty input, non-navigable
scheme, or a resolved scheme other than http/https. -/
def normalize_url (base link0 : Str) : Option Str :=
  if link0 = [] then none
  else
    let link1 := pyStrip link0
    if (str "javascript:").isPrefixOf (pyLower link1) ∨
        (str "mailto:").isPrefixOf (pyLower link1) ∨
        (str "tel:").isPrefixOf (pyLower link1) then none
    else
      let link2 := if repairMatch link1 then
          replaceFirst (str "https:/") (str "https://")
            (replaceFirst (str "http:/") (str "http://") link1)
        else link1
      let abs3 := unquote (urldefrag (urljoin base link2))
      let parsed := urlparse abs3 []
      if parsed.scheme = str "http" ∨ parsed.scheme = str "https" then
        some (urlunparse ⟨parsed.scheme, pyLower parsed.netloc, parsed.path,
          parsed.params, parsed.query, parsed.fragment⟩)
      else none

/-- `parse_forbidden_paths(raw)`: comma-split, strip, ensure a single leading
slash, drop duplicate trailing slashes, sort longest-first (stably). -/
def parse_forbidden_paths (raw : Option Str) : List Str :=
  match raw with
  | none => []
  | some r =>
    if r = [] then []
    else
      let parts := ((r.splitOn ',').map pyStrip).filter (fun p => p ≠ [])
      let normalized := parts.map (fun p =>
        let p1 := if (str "/").isPrefixOf p then p else '/' :: p
        if p1 = str "/" then str "/" else rstripSlash p1)
      sortLe (fun a b => b.length ≤ a.length) normalized

/-- The per-prefix test of `path_is_forbidden`'s loop: the root prefix matches
everything; otherwise exact match, or a prefix match at a path-segment
boundary (`path.startswith(fp.rstrip('/') + '/')`). -/
def forbiddenPrefixMatch (path fp : Str) : Bool :=
  fp = str "/" || path = fp || (rstripSlash fp ++ str "/").isPrefixOf path

/-- `path_is_forbidden(url, forbidden_prefixes)`.  The source loop returns
`True` at the first matching prefix and `False` after the loop; as a Boolean
that is `any` over the prefixes. -/
def path_is_forbidden (url : Str) (forbidden_prefixes : List Str) : Bool :=
  if forbidden_prefixes.isEmpty then false
  else
    let p := urlparse url []
    let path := if p.path = [] then str "/" else p.path
    forbidden_prefixes.any (fun fp => forbiddenPrefixMatch path fp)

/-- The fetch collaborator: `page.goto` + `page.content()` + link extraction,
abstracted as an oracle returning either a navigation error or the list of
links the extractor produced (a Python `set`, whose iteration order the
oracle fixes). -/
inductive Fetch where
  | err : Fetch
  | ok : List Str → Fetch
deriving DecidableEq

/-- The mutable state of `run_spider`'s loop; `fetched` instruments the URLs
for which `page.goto` was issued. -/
structure SpSt where
  queue : List Str
  visited : List Str
  sitemap : List Str
  fetched : List Str
deriving DecidableEq

/-- The link-enqueueing `for` loop of `run_spider`, threading the queue and
visited set exactly as the source mutates them. -/
def spiderEnqueue (scope_host : Str) (forb : List Str) :
    List Str → List Str → List Str → List Str × List Str
  | [], q, v => (q, v)
  | link :: ls, q, v =>
    if v.contains link || q.contains link then spiderEnqueue scope_host forb ls q v
    else if !(is_same_scope link scope_host) then spiderEnqueue scope_host forb ls q v
    else if path_is_forbidden link forb then spiderEnqueue scope_host forb ls q (pyAdd v link)
    else spiderEnqueue scope_host forb ls (q ++ [link]) v

/-- One iteration of `run_spider`'s `while` loop body. -/
def spiderStep (scope_host : Str) (forb : List Str) (fetch : Str → Fetch)
    (st : SpSt) : SpSt :=
  match st.queue with
  | [] => st
  | url :: rest =>
    if st.visited.contains url then { st with queue := rest }
    else if !(is_same_scope url scope_host) then { st with queue := rest }
    else if path_is_forbidden url forb then
      { st with queue := rest, visited := pyAdd st.visited url }
    else
      match fetch url with
      | .err => ⟨rest, pyAdd st.visited url, st.sitemap ++ [url], st.fetched ++ [url]⟩
      | .ok links =>
        let qv := spiderEnqueue scope_host forb links rest st.visited
        ⟨qv.1, pyAdd qv.2 url, st.sitemap ++ [url], st.fetched ++ [url]⟩

/-- `while to_visit and len(visited) < max_pages`, with fuel for termination;
`none` means the fuel ran out before the loop finished. -/
def spiderLoop (scope_host : Str) (forb : List Str) (maxPages : Nat)
    (fetch : Str → Fetch) : Nat → SpSt → Option SpSt
  | 0, _ => none
  | fuel + 1, st =>
    if st.queue ≠ [] ∧ st.visited.length < maxPages then
      spiderLoop scope_host forb maxPages fetch fuel (spiderStep scope_host forb fetch st)
    else some st

/-- `run_spider`: abort with exit status 2 when the start URL is forbidden,
otherwise seed the queue (start URL first, then the non-forbidden seeds) and
run the loop.  The result pairs the process exit status with the final state;
the sitemap file receives exactly `final.sitemap`. -/
def runSpider (start_url scope_host : Str) (seeds : List Str) (forb : List Str)
    (maxPages : Nat) (fetch : Str → Fetch) (fuel : Nat) : Option (Nat × SpSt) :=
  if path_is_forbidden start_url forb then some (2, ⟨[], [], [], []⟩)
  else
    let q := start_url :: seeds.filter
      (fun s => !(s == start_url) && !(path_is_forbidden s forb))
    match spiderLoop scope_host forb maxPages fetch fuel ⟨q, [], [], []⟩ with
    | some st => some (0, st)
    | none => none

/-- `main()` of BoberCrawler.py: validate the start URL's host, then its path
against the parsed forbidden prefixes (each failure exits with status 2 before
any fetch), then run the spider. -/
def boberMain (start_url scope_host : Str) (forbidden_raw : Option Str)
    (seeds : List Str) (maxPages : Nat) (fetch : Str → Fetch) (fuel : Nat) :
    Option (Nat × SpSt) :=
  if !(validate_start_in_scope start_url scope_host) then some (2, ⟨[], [], [], []⟩)
  else
    let forb := parse_forbidden_paths forbidden_raw
    if path_is_forbidden start_url forb then some (2, ⟨[], [], [], []⟩)
    else runSpider start_url scope_host seeds forb maxPages fetch fuel

/- ---------------------------------------------------------------------------
src/bober_crawler/cli.py
--------------------------------------------------------------------------- -/

structure ScopeT where
  scheme : Str
  host : Option Str
  path : Str
deriving DecidableEq

/-- `parse_scope(scope_url)`. -/
def parse_scope (scope_url : Str) : ScopeT :=
  let p := urlparse scope_url []
  ⟨p.scheme, hostnameOf p.netloc,
    (if rstripSlash p.path = [] then str "/" else rstripSlash p.path)⟩

/-- `in_scope(url, scope)`. -/
def in_scope (url : Str) (scope : ScopeT) : Bool :=
  let p := urlparse url []
  p.scheme == scope.scheme && (hostnameOf p.netloc == scope.host) &&
    scope.path.isPrefixOf (if p.path = [] then str "/" else p.path)

/-- `is_excluded(url, excluded)`. -/
def is_excluded (url : Str) (excluded : List Str) : Bool :=
  let path := (urlparse url []).path
  excluded.any (fun p => p.isPrefixOf (if path = [] then str "/" else path))

/-- `f"{p.hostname}"`: Python renders `None` as the string `"None"`. -/
def hostDisplay (h : Option Str) : Str :=
  match h with
  | none => str "None"
  | some s => s

/-- The query-agnostic prefix loop of `smart_key`; both matching iterations
return the same key, so only whether some prefix matches is observable. -/
def matchesAgnostic (path : Str) : List Str → Bool
  | [] => false
  | pre :: rest => if pre.isPrefixOf path then true else matchesAgnostic path rest

/-- `smart_key(url, query_agnostic_paths)`: the dedup key. -/
def smart_key (url : Str) (query_agnostic_paths : List Str) : Str :=
  let p := urlparse url []
  let path := if p.path = [] then str "/" else p.path
  if matchesAgnostic path query_agnostic_paths then
    p.scheme ++ str "://" ++ hostDisplay (hostnameOf p.netloc) ++ path
  else
    let params := if p.query ≠ [] then
        ((p.query.splitOn '&').filter (fun part => part ≠ [])).map unquote
      else []
    p.scheme ++ str "://" ++ hostDisplay (hostnameOf p.netloc) ++ path ++
      '?' :: List.intercalate (str "&") (pySorted params)

/-- The nonempty lower-cased path segments used by the state-token guard. -/
def statePathParts (url : Str) : List Str :=
  ((pyLower (urlparse url []).path).splitOn '/').filter (fun x => x ≠ [])

/-- The decoded, lower-cased query sub-tokens (split on `/` and `;`) used by
the state-token guard; parameters without `=` are skipped. -/
def stateQueryParts (url : Str) : List Str :=
  ((urlparse url []).query.splitOn '&').flatMap (fun param =>
    if param.contains '=' then
      ((pyLower (unquote (splitFirst '=' param).2)).splitOnP
        (fun c => c = '/' || c = ';')).filter (fun x => x ≠ [])
    else [])

/-- `exceeds_state_token_limit(url, tokens, max_repeat)`. -/
def exceeds_state_token_limit (url : Str) (tokens : List Str) (max_repeat : Nat) : Bool :=
  if tokens.isEmpty then false
  else tokens.any (fun token =>
    max_repeat < (statePathParts url).count token + (stateQueryParts url).count token)

def DEFAULT_MAX_PARAM_LEN : Nat := 200

def DEFAULT_MAX_REPEAT_SEGMENTS : Nat := 3

/-- The per-parameter body of `is_recursive_trap`'s loop: parameters without
`=` are skipped; otherwise the decoded value is tested for excessive length,
for a slash-segment repeated at least the threshold number of times (the
source iterates `for seg in set(parts)`; as a Boolean outcome that equals
`any` over `parts` itself), and for containing the URL's own slash-stripped
path as a substring. -/
def trapParam (parsedPath : Str) (max_param_len max_repeat_segments : Nat)
    (param : Str) : Bool :=
  if !(param.contains '=') then false
  else
    let decoded := unquote (splitFirst '=' param).2
    if max_param_len < decoded.length then true
    else
      let parts := (decoded.splitOn '/').filter (fun x => x ≠ [])
      if parts.any (fun seg => max_repeat_segments ≤ parts.count seg) then true
      else if parsedPath ≠ [] then
        let path_clean := stripSlash parsedPath
        !path_clean.isEmpty && containsStr decoded path_clean
      else false

/-- `is_recursive_trap(url, max_param_len, max_repeat_segments)`. -/
def is_recursive_trap (url : Str) (max_param_len max_repeat_segments : Nat) : Bool :=
  let parsed := urlparse url []
  if parsed.query = [] then false
  else
    (parsed.query.splitOn '&').any
      (fun param => trapParam parsed.path max_param_len max_repeat_segments param)

/-- `wp_expand(url)`: the WordPress `/embed/` sibling of a directory URL. -/
def wp_expand (url : Str) : List Str :=
  let p := urlparse url []
  if (str "/").isSuffixOf p.path && !((str "/embed/").isSuffixOf p.path) then
    [rstripSlash url ++ str "/embed/"]
  else []

/-- The run configuration of `crawl(args)` (after `main`'s normalization). -/
structure CliArgs where
  scope : ScopeT
  exclude_paths : List Str
  query_agnostic_paths : List Str
  state_tokens : List Str
  state_max_repeat : Nat
  max_pages : Nat
  wp_expand_flag : Bool

/-- The mutable state of `crawl`'s loop; `fetched` instruments the URLs for
which `page.goto` was issued.  `crawl` maintains no sitemap. -/
structure CliSt where
  queue : List Str
  visited : List Str
  fetched : List Str
deriving DecidableEq

/-- The link-enqueueing `for` loop of `crawl`: extracted links are filtered by
scope, trap and state guards (not by the exclusion list), appended, and
optionally WordPress-expanded with a trap check on the derived URL. -/
def cliEnqueue (args : CliArgs) : List Str → List Str → List Str
  | [], q => q
  | u :: us, q =>
    if !(in_scope u args.scope) then cliEnqueue args us q
    else if is_recursive_trap u DEFAULT_MAX_PARAM_LEN DEFAULT_MAX_REPEAT_SEGMENTS then
      cliEnqueue args us q
    else if exceeds_state_token_limit u args.state_tokens args.state_max_repeat then
      cliEnqueue args us q
    else
      let q2 := q ++ [u]
      let q3 := if args.wp_expand_flag then
          q2 ++ (wp_expand u).filter
            (fun w => !(is_recursive_trap w DEFAULT_MAX_PARAM_LEN DEFAULT_MAX_REPEAT_SEGMENTS))
        else q2
      cliEnqueue args us q3

/-- One iteration of `crawl`'s `while` loop body. -/
def cliStep (args : CliArgs) (fetch : Str → Fetch) (st : CliSt) : CliSt :=
  match st.queue with
  | [] => st
  | url :: rest =>
    if !(in_scope url args.scope) then { st with queue := rest }
    else if is_excluded url args.exclude_paths then { st with queue := rest }
    else if is_recursive_trap url DEFAULT_MAX_PARAM_LEN DEFAULT_MAX_REPEAT_SEGMENTS then
      { st with queue := rest }
    else if exceeds_state_token_limit url args.state_tokens args.state_max_repeat then
      { st with queue := rest }
    else
      let key := smart_key url args.query_agnostic_paths
      if st.visited.contains key then { st with queue := rest }
      else
        match fetch url with
        | .err => ⟨rest, pyAdd st.visited key, st.fetched ++ [url]⟩
        | .ok links => ⟨cliEnqueue args links rest, pyAdd st.visited key, st.fetched ++ [url]⟩

/-- `while queue and len(visited) < args.max_pages`, with fuel. -/
def cliLoop (args : CliArgs) (fetch : Str → Fetch) : Nat → CliSt → Option CliSt
  | 0, _ => none
  | fuel + 1, st =>
    if st.queue ≠ [] ∧ st.visited.length < args.max_pages then
      cliLoop args fetch fuel (cliStep args fetch st)
    else some st

/-- `main()` of cli.py: no start-URL validation happens before `crawl`; a
completed crawl returns normally and the process exits with status 0. -/
def cliMain (args : CliArgs) (start_url : Str) (fetch : Str → Fetch) (fuel : Nat) :
    Option (Nat × CliSt) :=
  match cliLoop args fetch fuel ⟨[start_url], [], []⟩ with
  | some st => some (0, st)
  | none => none

/- ---------------------------------------------------------------------------
Claim theorems
--------------------------------------------------------------------------- -/

theorem matchesAgnostic_eq_any (path : Str) (l : List Str) :
    matchesAgnostic path l = l.any (fun pre => pre.isPrefixOf path) := by
  induction l with
  | nil => rfl
  | cons a t ih =>
    simp only [matchesAgnostic, List.any_cons]
    by_cases h : a.isPrefixOf path <;> simp [h, ih]

/-- C3: for a non-root forbidden prefix as configured (no trailing slash), the
per-prefix test of the Forbidden-Path Filter accepts exactly the exact match
and the segment-boundary extensions; with prefix `/logout` the filter blocks
`/logout` and `/logout/confirm` but not `/logoutsettings`. -/
theorem c3_forbidden_segment_boundary :
    (∀ p q : Str, p ≠ str "/" → rstripSlash p = p →
      (forbiddenPrefixMatch q p = true ↔
        (q = p ∨ (p ++ str "/").isPrefixOf q = true))) ∧
    path_is_forbidden (str "http://h/logout") [str "/logout"] = true ∧
    path_is_forbidden (str "http://h/logout/confirm") [str "/logout"] = true ∧
    path_is_forbidden (str "http://h/logoutsettings") [str "/logout"] = false := by
  refine ⟨?_, by decide, by decide, by decide⟩
  intro p q hp hrs
  simp [forbiddenPrefixMatch, hrs, hp]

/-- C3 witness: the general part of the theorem instantiated at the prefix
`/logout` and the path `/logout/confirm`. -/
theorem c3_forbidden_segment_boundary_witness :
    forbiddenPrefixMatch (str "/logout/confirm") (str "/logout") = true ↔
      (str "/logout/confirm" = str "/logout" ∨
        (str "/logout" ++ str "/").isPrefixOf (str "/logout/confirm") = true) :=
  c3_forbidden_segment_boundary.1 (str "/logout") (str "/logout/confirm")
    (by decide) (by decide)

/-- Reference definition of the dedup key, following the specification's words
(§4.7): under a configured query-agnostic path prefix the key is
`scheme://host+path` with the query discarded; otherwise it is
`scheme://host+path?` followed by the query parameters (the nonempty
`&`-separated components), each percent-decoded, lexicographically sorted and
rejoined with `&`. -/
def smart_key_ref (url : Str) (query_agnostic_paths : List Str) : Str :=
  let p := urlparse url []
  let path := if p.path = [] then str "/" else p.path
  if query_agnostic_paths.any (fun pre => pre.isPrefixOf path) then
    p.scheme ++ str "://" ++ hostDisplay (hostnameOf p.netloc) ++ path
  else
    let params := ((p.query.splitOn '&').filter (fun part => part ≠ [])).map unquote
    p.scheme ++ str "://" ++ hostDisplay (hostnameOf p.netloc) ++ path ++
      '?' :: List.intercalate (str "&") (pySorted params)

theorem smart_key_params_guard (q : Str) :
    (if q ≠ [] then ((q.splitOn '&').filter (fun part => part ≠ [])).map unquote else []) =
      ((q.splitOn '&').filter (fun part => part ≠ [])).map unquote := by
  by_cases h : q = []
  · subst h
    rfl
  · simp [h]

/-- C5: the dedup-key function agrees with its reference definition on every
input, and in particular collapses query-parameter reordering, collapses
percent-encoding differences, and discards the query under a configured
query-agnostic prefix. -/
theorem c5_smart_key_matches_reference :
    (∀ url qap, smart_key url qap = smart_key_ref url qap) ∧
    smart_key (str "http://h/p?a=1&b=2") [] = smart_key (str "http://h/p?b=2&a=1") [] ∧
    smart_key (str "http://h/p?x=%41") [] = smart_key (str "http://h/p?x=A") [] ∧
    smart_key (str "http://h/shop?x=1") [str "/shop"] =
      smart_key (str "http://h/shop?x=2") [str "/shop"] := by
  refine ⟨?_, by decide, by decide, by decide⟩
  intro url qap
  simp only [smart_key, smart_key_ref, matchesAgnostic_eq_any, smart_key_params_guard]

/-- C5 witness: the general agreement instantiated at a concrete URL. -/
theorem c5_smart_key_matches_reference_witness :
    smart_key (str "http://h/p?b=2&a=1") [str "/shop"] =
      smart_key_ref (str "http://h/p?b=2&a=1") [str "/shop"] :=
  c5_smart_key_matches_reference.1 (str "http://h/p?b=2&a=1") [str "/shop"]

theorem bnot_isEmpty_iff (l : Str) : (!l.isEmpty) = true ↔ l ≠ [] := by
  cases l <;> simp [List.isEmpty]

theorem trapParam_eq_true_iff (pp : Str) (L R : Nat) (param : Str) :
    trapParam pp L R param = true ↔
      (param.contains '=' = true ∧
        (L < (unquote (splitFirst '=' param).2).length ∨
         (∃ seg ∈ ((unquote (splitFirst '=' param).2).splitOn '/').filter (fun x => x ≠ []),
            R ≤ (((unquote (splitFirst '=' param).2).splitOn '/').filter
              (fun x => x ≠ [])).count seg) ∨
         (stripSlash pp ≠ [] ∧
           containsStr (unquote (splitFirst '=' param).2) (stripSlash pp) = true))) := by
  simp only [trapParam]
  split_ifs with h1 h2 h3 h4
  · have h1' : '=' ∉ param := by simpa using h1
    simp [h1']
  · have hc : param.contains '=' = true := by simpa using h1
    exact iff_of_true rfl ⟨hc, Or.inl h2⟩
  · have hc : param.contains '=' = true := by simpa using h1
    rw [List.any_eq_true] at h3
    simp only [decide_eq_true_eq] at h3
    exact iff_of_true rfl ⟨hc, Or.inr (Or.inl h3)⟩
  · rw [List.any_eq_true] at h3
    simp only [decide_eq_true_eq, not_exists, not_and] at h3
    constructor
    · intro hb
      rw [Bool.and_eq_true] at hb
      have hc : param.contains '=' = true := by simpa using h1
      refine ⟨hc, Or.inr (Or.inr ⟨?_, hb.2⟩)⟩
      exact (bnot_isEmpty_iff _).mp hb.1
    · rintro ⟨-, hcase⟩
      rcases hcase with hcase | hcase | hcase
      · exact absurd hcase h2
      · obtain ⟨seg, hseg, hcount⟩ := hcase
        exact absurd hcount (h3 seg hseg)
      · rw [Bool.and_eq_true]
        exact ⟨(bnot_isEmpty_iff _).mpr hcase.1, hcase.2⟩
  · simp only [not_not] at h4
    rw [List.any_eq_true] at h3
    simp only [decide_eq_true_eq, not_exists, not_and] at h3
    refine iff_of_false (by simp) ?_
    rintro ⟨-, hcase⟩
    rcases hcase with hcase | hcase | hcase
    · exact h2 hcase
    · obtain ⟨seg, hseg, hcount⟩ := hcase
      exact h3 seg hseg hcount
    · rw [h4] at hcase
      exact hcase.1 rfl

/-- C6: the Recursive-Trap Detector fires exactly when the URL has a query
string and some `key=value` pair's percent-decoded value exceeds the length
ceiling, or repeats some slash-segment at least the threshold number of times,
or contains the URL's own slash-stripped path as a substring; `?next=/a/a/a`
is flagged at threshold 3 and `?next=/a/b/c` is not. -/
theorem c6_recursive_trap_characterization :
    (∀ url L R, is_recursive_trap url L R = true ↔
      ((urlparse url []).query ≠ [] ∧
       ∃ param ∈ (urlparse url []).query.splitOn '&',
         param.contains '=' = true ∧
         (L < (unquote (splitFirst '=' param).2).length ∨
          (∃ seg ∈ ((unquote (splitFirst '=' param).2).splitOn '/').filter (fun x => x ≠ []),
             R ≤ (((unquote (splitFirst '=' param).2).splitOn '/').filter
               (fun x => x ≠ [])).count seg) ∨
          (stripSlash (urlparse url []).path ≠ [] ∧
            containsStr (unquote (splitFirst '=' param).2)
              (stripSlash (urlparse url []).path) = true)))) ∧
    is_recursive_trap (str "http://h/x?next=/a/a/a") DEFAULT_MAX_PARAM_LEN
      DEFAULT_MAX_REPEAT_SEGMENTS = true ∧
    is_recursive_trap (str "http://h/x?next=/a/b/c") DEFAULT_MAX_PARAM_LEN
      DEFAULT_MAX_REPEAT_SEGMENTS = false := by
  refine ⟨?_, by decide, by decide⟩
  intro url L R
  simp only [is_recursive_trap]
  by_cases hq : (urlparse url []).query = []
  · simp [hq]
  · rw [if_neg hq, List.any_eq_true]
    constructor
    · rintro ⟨param, hmem, hbody⟩
      exact ⟨hq, param, hmem, (trapParam_eq_true_iff _ L R param).mp hbody⟩
    · rintro ⟨-, param, hmem, hbody⟩
      exact ⟨param, hmem, (trapParam_eq_true_iff _ L R param).mpr hbody⟩

/-- C7: the State-Token Guard rejects exactly when some configured token's
count among path segments plus its count among the decoded query sub-tokens
strictly exceeds the maximum; a token occurring three times is rejected at
maximum 2 and accepted at maximum 3. -/
theorem c7_state_token_guard_characterization :
    (∀ url tokens m, exceeds_state_token_limit url tokens m = true ↔
      ∃ t ∈ tokens, m < (statePathParts url).count t + (stateQueryParts url).count t) ∧
    exceeds_state_token_limit (str "http://h/embed/embed/embed") [str "embed"] 2 = true ∧
    exceeds_state_token_limit (str "http://h/embed/embed/embed") [str "embed"] 3 = false := by
  refine ⟨?_, by decide, by decide⟩
  intro url tokens m
  unfold exceeds_state_token_limit
  by_cases h : tokens.isEmpty
  · rw [List.isEmpty_iff] at h
    subst h
    simp
  · simp [h, List.any_eq_true]

/-- C10: a query parameter without `=` is skipped by the Recursive-Trap
Detector, so a URL all of whose query parameters lack `=` is never flagged,
regardless of the configured limits. -/
theorem c10_bare_query_values_ignored (url : Str) (L R : Nat)
    (h : ∀ param ∈ (urlparse url []).query.splitOn '&', param.contains '=' = false) :
    is_recursive_trap url L R = false := by
  simp only [is_recursive_trap]
  by_cases hq : (urlparse url []).query = []
  · simp [hq]
  · rw [if_neg hq, List.any_eq_false]
    intro param hmem
    have h2 := h param hmem
    simp only [trapParam, h2, Bool.not_false, if_true]
    exact Bool.false_ne_true

/-- C10 witness: a single bare query value far longer than the default length
ceiling is not flagged. -/
theorem c10_bare_query_values_ignored_witness :
    is_recursive_trap
      (str "http://h/x?aaaaaaaaaaaaaaaaaaaaaaaaaaaaaaaaaaaaaaaaaaaaaaaaaaaaaaaaaaaaaaaaaaaaaaaaaaaaaaaaaaaaaaaaaaaaaaaaaaaaaaaaaaaaaaaaaaaaaaaaaaaaaaaaaaaaaaaaaaaaaaaaaaaaaaaaaaaaaaaaaaaaaaaaaaaaaaaaaaaaaaaaaaaaaaaaaaaaaaaaaaaaaaaaaaaaaaaaaaaaaaaaaaaaaaaa")
      DEFAULT_MAX_PARAM_LEN DEFAULT_MAX_REPEAT_SEGMENTS = false :=
  c10_bare_query_values_ignored _ DEFAULT_MAX_PARAM_LEN DEFAULT_MAX_REPEAT_SEGMENTS
    (by decide)

theorem pyAdd_ne_nil (s : List Str) (x : Str) : pyAdd s x ≠ [] := by
  cases s with
  | nil => simp [pyAdd]
  | cons a t =>
    unfold pyAdd
    split_ifs <;> simp

/-- C9: with a page ceiling of 1 and a start URL that passes the admission
filters of `run_spider` (scope and forbidden-path), a run issues exactly one
fetch and writes exactly one sitemap line, whatever the seed list, the page's
links, and the fetch outcome. -/
theorem c9_max_pages_one (start_url scope_host : Str) (seeds : List Str)
    (forb : List Str) (fetch : Str → Fetch) (fuel : Nat)
    (hs : is_same_scope start_url scope_host = true)
    (hf : path_is_forbidden start_url forb = false)
    (hfuel : 2 ≤ fuel) :
    ∃ st, runSpider start_url scope_host seeds forb 1 fetch fuel = some (0, st) ∧
      st.fetched.length = 1 ∧ st.sitemap.length = 1 := by
  obtain ⟨f, rfl⟩ : ∃ f, fuel = f + 2 := ⟨fuel - 2, by omega⟩
  have hstep : ∃ q' v', spiderStep scope_host forb fetch
      ⟨start_url :: seeds.filter (fun s => !(s == start_url) && !(path_is_forbidden s forb)),
        [], [], []⟩ = ⟨q', v', [start_url], [start_url]⟩ ∧ v' ≠ [] := by
    simp only [spiderStep]
    rw [if_neg (by simp : ¬(([] : List Str).contains start_url = true))]
    rw [if_neg (by simp [hs] : ¬((!(is_same_scope start_url scope_host)) = true))]
    rw [if_neg (by simp [hf] : ¬(path_is_forbidden start_url forb = true))]
    cases hfetch : fetch start_url with
    | err => exact ⟨_, _, rfl, pyAdd_ne_nil _ _⟩
    | ok links => exact ⟨_, _, rfl, pyAdd_ne_nil _ _⟩
  obtain ⟨q', v', heq, hv⟩ := hstep
  refine ⟨⟨q', v', [start_url], [start_url]⟩, ?_, rfl, rfl⟩
  simp only [runSpider]
  rw [if_neg (by simp [hf] : ¬(path_is_forbidden start_url forb = true))]
  have hloop : spiderLoop scope_host forb 1 fetch (f + 2)
      ⟨start_url :: seeds.filter (fun s => !(s == start_url) && !(path_is_forbidden s forb)),
        [], [], []⟩ = some ⟨q', v', [start_url], [start_url]⟩ := by
    simp only [spiderLoop]
    rw [if_pos ⟨by simp, by simp⟩]
    rw [heq]
    simp only [spiderLoop]
    rw [if_neg ?hc]
    case hc =>
      rintro ⟨-, hlt⟩
      have hp := List.length_pos.mpr hv
      omega
  rw [hloop]

/-- C9 witness: the theorem instantiated at a concrete one-page configuration. -/
theorem c9_max_pages_one_witness :
    ∃ st, runSpider (str "http://site.test/") (str "site.test") [] [] 1
      (fun _ => Fetch.ok []) 2 = some (0, st) ∧
      st.fetched.length = 1 ∧ st.sitemap.length = 1 :=
  c9_max_pages_one (str "http://site.test/") (str "site.test") [] []
    (fun _ => Fetch.ok []) 2 (by decide) (by decide) (by decide)

theorem spiderStep_sitemap_eq_fetched (scope_host : Str) (forb : List Str)
    (fetch : Str → Fetch) (st : SpSt) (h : st.sitemap = st.fetched) :
    (spiderStep scope_host forb fetch st).sitemap =
      (spiderStep scope_host forb fetch st).fetched := by
  unfold spiderStep
  cases hq : st.queue with
  | nil => exact h
  | cons url rest =>
    dsimp only
    split_ifs with h1 h2 h3
    · exact h
    · exact h
    · exact h
    · cases hfetch : fetch url <;> simp [h]

theorem spiderLoop_sitemap_eq_fetched (scope_host : Str) (forb : List Str)
    (maxPages : Nat) (fetch : Str → Fetch) :
    ∀ (fuel : Nat) (st st' : SpSt),
      spiderLoop scope_host forb maxPages fetch fuel st = some st' →
      st.sitemap = st.fetched → st'.sitemap = st'.fetched := by
  intro fuel
  induction fuel with
  | zero =>
    intro st st' h
    simp [spiderLoop] at h
  | succ f ih =>
    intro st st' h hinv
    simp only [spiderLoop] at h
    split_ifs at h with hcond
    · exact ih _ _ h (spiderStep_sitemap_eq_fetched _ _ _ _ hinv)
    · cases h
      exact hinv

/-- C1 amended: in every completed `run_spider` run the sitemap lines are
exactly the URLs for which a fetch was attempted, in visit order — fetch
failures included, since the exception handler also appends the URL. -/
theorem c1_sitemap_equals_attempted (start_url scope_host : Str)
    (seeds forb : List Str) (maxPages : Nat) (fetch : Str → Fetch) (fuel : Nat)
    (code : Nat) (st : SpSt)
    (h : runSpider start_url scope_host seeds forb maxPages fetch fuel = some (code, st)) :
    st.sitemap = st.fetched := by
  simp only [runSpider] at h
  split_ifs at h with hforb
  · simp only [Option.some.injEq, Prod.mk.injEq] at h
    obtain ⟨-, hst⟩ := h
    subst hst
    rfl
  · cases hloop : spiderLoop scope_host forb maxPages fetch fuel
        ⟨start_url :: seeds.filter (fun s => !(s == start_url) && !(path_is_forbidden s forb)),
          [], [], []⟩ with
    | none =>
      rw [hloop] at h
      cases h
    | some stf =>
      rw [hloop] at h
      simp only [Option.some.injEq, Prod.mk.injEq] at h
      obtain ⟨-, hst⟩ := h
      subst hst
      exact spiderLoop_sitemap_eq_fetched _ _ _ _ fuel _ _ hloop rfl

/-- C1 amended witness: a concrete completed run whose only fetch fails. -/
theorem c1_sitemap_equals_attempted_witness :
    (⟨[], [str "http://site.test/"], [str "http://site.test/"],
      [str "http://site.test/"]⟩ : SpSt).sitemap =
    (⟨[], [str "http://site.test/"], [str "http://site.test/"],
      [str "http://site.test/"]⟩ : SpSt).fetched :=
  c1_sitemap_equals_attempted (str "http://site.test/") (str "site.test") [] [] 5
    (fun _ => Fetch.err) 3 0 _ (by decide)

/-- C1 counterexample: a completed run whose single fetch raises an error
still appends that URL to the sitemap, so the sitemap is not restricted to
successfully fetched URLs. -/
theorem c1_counterexample :
    runSpider (str "http://site.test/") (str "site.test") [] [] 5
      (fun _ => Fetch.err) 3 =
      some (0, ⟨[], [str "http://site.test/"], [str "http://site.test/"],
        [str "http://site.test/"]⟩) ∧
    (fun _ => Fetch.err) (str "http://site.test/") = Fetch.err := by
  exact ⟨by decide, rfl⟩

/-- C2 amended: a dequeued URL that fails an admission filter can be dropped
without its dedup-key being added to the visited set, so the original claim
fails in both crawlers.  In cli.py's `crawl` this happens for all four
filters (scope, excluded path, recursive trap, state token): the loop
continues and visited keys are recorded only for URLs that reach the fetch
stage.  In BoberCrawler.py's `run_spider` it happens for the scope filter:
the out-of-scope branch `continue`s without `visited.add` (only the
forbidden-path branch marks the URL visited). -/
theorem c2_filtered_url_not_marked_visited (args : CliArgs) (fetch : Str → Fetch)
    (st : CliSt) (url : Str) (rest : List Str)
    (scope_host : Str) (forb : List Str) (sfetch : Str → Fetch) (sst : SpSt)
    (surl : Str) (srest : List Str)
    (hq : st.queue = url :: rest)
    (h : in_scope url args.scope = false ∨ is_excluded url args.exclude_paths = true ∨
      is_recursive_trap url DEFAULT_MAX_PARAM_LEN DEFAULT_MAX_REPEAT_SEGMENTS = true ∨
      exceeds_state_token_limit url args.state_tokens args.state_max_repeat = true)
    (hsq : sst.queue = surl :: srest)
    (hscope : is_same_scope surl scope_host = false) :
    ((cliStep args fetch st).visited = st.visited ∧ (cliStep args fetch st).queue = rest ∧
      (cliStep args fetch st).fetched = st.fetched) ∧
    ((spiderStep scope_host forb sfetch sst).visited = sst.visited ∧
      (spiderStep scope_host forb sfetch sst).queue = srest ∧
      (spiderStep scope_host forb sfetch sst).sitemap = sst.sitemap ∧
      (spiderStep scope_host forb sfetch sst).fetched = sst.fetched) := by
  constructor
  · unfold cliStep
    rw [hq]
    dsimp only
    split_ifs with h1 h2 h3 h4 h5
    · exact ⟨rfl, rfl, rfl⟩
    · exact ⟨rfl, rfl, rfl⟩
    · exact ⟨rfl, rfl, rfl⟩
    · exact ⟨rfl, rfl, rfl⟩
    · exact ⟨rfl, rfl, rfl⟩
    · have h1' : in_scope url args.scope = true := by simpa using h1
      rcases h with hc | hc | hc | hc
      · rw [h1'] at hc
        cases hc
      · exact absurd hc h2
      · exact absurd hc h3
      · exact absurd hc h4
  · unfold spiderStep
    rw [hsq]
    dsimp only
    split_ifs with g1 g2 g3
    · exact ⟨rfl, rfl, rfl, rfl⟩
    · exact ⟨rfl, rfl, rfl, rfl⟩
    · exact absurd (by rw [hscope]; rfl) g2
    · exact absurd (by rw [hscope]; rfl) g2

/-- C2 amended witness: concrete single-step states — in cli.py the dequeued
URL fails the scope filter and in run_spider the dequeued URL is out of
scope; in both the URL is dropped with the visited set unchanged. -/
theorem c2_filtered_url_not_marked_visited_witness :
    ((cliStep ⟨parse_scope (str "http://site.test"), [], [], [], 2, 10, false⟩
        (fun _ => Fetch.err) ⟨[str "http://other.test/"], [], []⟩).visited =
        (⟨[str "http://other.test/"], [], []⟩ : CliSt).visited ∧
      (cliStep ⟨parse_scope (str "http://site.test"), [], [], [], 2, 10, false⟩
        (fun _ => Fetch.err) ⟨[str "http://other.test/"], [], []⟩).queue = [] ∧
      (cliStep ⟨parse_scope (str "http://site.test"), [], [], [], 2, 10, false⟩
        (fun _ => Fetch.err) ⟨[str "http://other.test/"], [], []⟩).fetched =
        (⟨[str "http://other.test/"], [], []⟩ : CliSt).fetched) ∧
    ((spiderStep (str "site.test") [] (fun _ => Fetch.err)
        ⟨[str "http://other.test/"], [], [], []⟩).visited =
        (⟨[str "http://other.test/"], [], [], []⟩ : SpSt).visited ∧
      (spiderStep (str "site.test") [] (fun _ => Fetch.err)
        ⟨[str "http://other.test/"], [], [], []⟩).queue = [] ∧
      (spiderStep (str "site.test") [] (fun _ => Fetch.err)
        ⟨[str "http://other.test/"], [], [], []⟩).sitemap =
        (⟨[str "http://other.test/"], [], [], []⟩ : SpSt).sitemap ∧
      (spiderStep (str "site.test") [] (fun _ => Fetch.err)
        ⟨[str "http://other.test/"], [], [], []⟩).fetched =
        (⟨[str "http://other.test/"], [], [], []⟩ : SpSt).fetched) :=
  c2_filtered_url_not_marked_visited
    ⟨parse_scope (str "http://site.test"), [], [], [], 2, 10, false⟩
    (fun _ => Fetch.err) ⟨[str "http://other.test/"], [], []⟩
    (str "http://other.test/") []
    (str "site.test") [] (fun _ => Fetch.err)
    ⟨[str "http://other.test/"], [], [], []⟩ (str "http://other.test/") []
    rfl (Or.inl (by decide)) rfl (by decide)

/-- C2 counterexample: the original claim fails in both crawlers.  In cli.py
a completed `crawl` run whose dequeued start URL fails the scope filter ends
with an empty visited set.  In BoberCrawler.py a completed `run_spider` run
whose queue contained an out-of-scope seed ends with a visited set that does
not contain that seed — its dedup-key was never added, contrary to the
claim. -/
theorem c2_counterexample :
    cliMain ⟨parse_scope (str "http://site.test"), [], [], [], 2, 10, false⟩
      (str "http://other.test/") (fun _ => Fetch.err) 3 = some (0, ⟨[], [], []⟩) ∧
    in_scope (str "http://other.test/") (parse_scope (str "http://site.test")) = false ∧
    runSpider (str "http://site.test/") (str "site.test")
      [str "http://other.test/"] [] 10 (fun _ => Fetch.ok []) 4 =
      some (0, ⟨[], [str "http://site.test/"], [str "http://site.test/"],
        [str "http://site.test/"]⟩) ∧
    is_same_scope (str "http://other.test/") (str "site.test") = false := by
  exact ⟨by decide, by decide, by decide, by decide⟩

/-- C8 amended: BoberCrawler.py's startup exits with status 2, before any
fetch is issued, when the start URL is out of scope or its path matches a
configured forbidden prefix.  (cli.py performs no such validation: see the
counterexample, where an out-of-scope start URL yields a completed run with
exit status 0 — though still without a fetch.) -/
theorem c8_bober_fails_fast (start_url scope_host : Str) (forbidden_raw : Option Str)
    (seeds : List Str) (maxPages : Nat) (fetch : Str → Fetch) (fuel : Nat)
    (h : validate_start_in_scope start_url scope_host = false ∨
      path_is_forbidden start_url (parse_forbidden_paths forbidden_raw) = true) :
    boberMain start_url scope_host forbidden_raw seeds maxPages fetch fuel =
      some (2, ⟨[], [], [], []⟩) := by
  unfold boberMain
  rcases h with h | h
  · rw [if_pos (by simp [h])]
  · by_cases hv : validate_start_in_scope start_url scope_host = true
    · rw [if_neg (by simp [hv])]
      dsimp only
      rw [if_pos h]
    · rw [if_pos (by simpa using hv)]

/-- C8 amended witness: an out-of-scope start URL aborts with exit 2 and an
empty run state. -/
theorem c8_bober_fails_fast_witness :
    boberMain (str "http://other.test/") (str "site.test") none [] 10
      (fun _ => Fetch.ok []) 5 = some (2, ⟨[], [], [], []⟩) :=
  c8_bober_fails_fast (str "http://other.test/") (str "site.test") none [] 10
    (fun _ => Fetch.ok []) 5 (Or.inl (by decide))

/-- C8 counterexample: in cli.py a start URL that is out of scope (here by
scheme) does not abort startup — the run completes with exit status 0 (and no
fetch), falsifying the claim that every such configuration exits non-zero. -/
theorem c8_counterexample :
    cliMain ⟨parse_scope (str "https://site.test"), [], [], [], 2, 10, false⟩
      (str "http://site.test/") (fun _ => Fetch.ok []) 3 = some (0, ⟨[], [], []⟩) ∧
    in_scope (str "http://site.test/") (parse_scope (str "https://site.test")) = false := by
  exact ⟨by decide, by decide⟩

/- ---------------------------------------------------------------------------
List and string lemmas supporting the round-trip argument for C4.
--------------------------------------------------------------------------- -/

theorem takeWhile_append_of_all (p : Char → Bool) (a b : Str)
    (h : ∀ c ∈ a, p c = true) : (a ++ b).takeWhile p = a ++ b.takeWhile p := by
  induction a with
  | nil => simp
  | cons x t ih =>
    have hx := h x (by simp)
    simp only [List.cons_append, List.takeWhile_cons, hx, if_true]
    rw [ih (fun c hc => h c (by simp [hc]))]

theorem dropWhile_append_of_all (p : Char → Bool) (a b : Str)
    (h : ∀ c ∈ a, p c = true) : (a ++ b).dropWhile p = b.dropWhile p := by
  induction a with
  | nil => simp
  | cons x t ih =>
    have hx := h x (by simp)
    simp only [List.cons_append, List.dropWhile_cons, hx, if_true]
    exact ih (fun c hc => h c (by simp [hc]))

theorem mem_of_mem_takeWhile {p : Char → Bool} {l : Str} {c : Char}
    (h : c ∈ l.takeWhile p) : c ∈ l := by
  induction l with
  | nil => simp at h
  | cons x t ih =>
    rw [List.takeWhile_cons] at h
    by_cases hx : p x = true
    · rw [if_pos hx] at h
      rcases List.mem_cons.mp h with h | h
      · simp [h]
      · simp [ih h]
    · rw [if_neg hx] at h
      simp at h

theorem pred_of_mem_takeWhile {p : Char → Bool} {l : Str} {c : Char}
    (h : c ∈ l.takeWhile p) : p c = true := by
  induction l with
  | nil => simp at h
  | cons x t ih =>
    rw [List.takeWhile_cons] at h
    by_cases hx : p x = true
    · rw [if_pos hx] at h
      rcases List.mem_cons.mp h with h | h
      · rwa [h]
      · exact ih h
    · rw [if_neg hx] at h
      simp at h

theorem mem_of_mem_dropWhile {p : Char → Bool} {l : Str} {c : Char}
    (h : c ∈ l.dropWhile p) : c ∈ l := by
  induction l with
  | nil => simp at h
  | cons x t ih =>
    rw [List.dropWhile_cons] at h
    by_cases hx : p x = true
    · rw [if_pos hx] at h
      simp [ih h]
    · rw [if_neg hx] at h
      exact h

theorem dropWhile_nil_or_head (p : Char → Bool) (l : Str) :
    l.dropWhile p = [] ∨ ∃ c t, l.dropWhile p = c :: t ∧ p c = false := by
  induction l with
  | nil => simp
  | cons x t ih =>
    rw [List.dropWhile_cons]
    by_cases hx : p x = true
    · rw [if_pos hx]
      exact ih
    · rw [if_neg hx]
      exact Or.inr ⟨x, t, rfl, by simpa using hx⟩

theorem contains_iff (l : Str) (c : Char) : l.contains c = true ↔ c ∈ l := by
  simp [List.contains]

theorem contains_false_iff (l : Str) (c : Char) : l.contains c = false ↔ c ∉ l := by
  rw [← contains_iff]
  cases l.contains c <;> simp

theorem splitFirst_append (c : Char) (a b : Str) (h : c ∉ a) :
    splitFirst c (a ++ c :: b) = (a, b) := by
  unfold splitFirst
  have hall : ∀ x ∈ a, (fun y => decide (y ≠ c)) x = true := by
    intro x hx
    simp only [decide_eq_true_eq, ne_eq]
    rintro rfl
    exact h hx
  rw [takeWhile_append_of_all _ _ _ hall, dropWhile_append_of_all _ _ _ hall]
  simp

theorem splitFirst_recomb (c : Char) (s : Str) (h : c ∈ s) :
    (splitFirst c s).1 ++ c :: (splitFirst c s).2 = s := by
  induction s with
  | nil => simp at h
  | cons a t ih =>
    by_cases ha : a = c
    · subst ha
      simp [splitFirst, List.takeWhile_cons, List.dropWhile_cons]
    · have hct : c ∈ t := by
        rcases List.mem_cons.mp h with h | h
        · exact absurd h.symm ha
        · exact h
      have hrec := ih hct
      simp only [splitFirst] at hrec ⊢
      rw [List.takeWhile_cons, List.dropWhile_cons]
      have hd : (decide ¬(a = c)) = true := by simp [ha]
      simp only [ne_eq, hd, if_true, List.cons_append, List.cons.injEq, true_and]
      exact hrec

theorem not_mem_splitFirst_fst (c : Char) (s : Str) : c ∉ (splitFirst c s).1 := by
  intro h
  have := pred_of_mem_takeWhile h
  simp at this

theorem mem_splitFirst_fst {c a : Char} {s : Str} (h : a ∈ (splitFirst c s).1) :
    a ∈ s := mem_of_mem_takeWhile h

theorem mem_splitFirst_snd {c a : Char} {s : Str} (h : a ∈ (splitFirst c s).2) :
    a ∈ s := by
  unfold splitFirst at h
  exact mem_of_mem_dropWhile (List.mem_of_mem_drop h)

theorem uptoLast_append_afterLast (c : Char) (s : Str) :
    uptoLast c s ++ afterLast c s = s := by
  unfold uptoLast afterLast
  rw [← List.reverse_append, List.takeWhile_append_dropWhile, List.reverse_reverse]

theorem not_mem_afterLast (c : Char) (s : Str) : c ∉ afterLast c s := by
  intro h
  rw [afterLast, List.mem_reverse] at h
  have := pred_of_mem_takeWhile h
  simp at this

theorem mem_afterLast {c a : Char} {s : Str} (h : a ∈ afterLast c s) : a ∈ s := by
  have heq := uptoLast_append_afterLast c s
  exact heq ▸ List.mem_append_right _ h

theorem mem_uptoLast {c a : Char} {s : Str} (h : a ∈ uptoLast c s) : a ∈ s := by
  have heq := uptoLast_append_afterLast c s
  exact heq ▸ List.mem_append_left _ h

theorem dropWhile_eq_cons_of_mem (c : Char) (l : Str) (h : c ∈ l) :
    ∃ t, l.dropWhile (fun a => a ≠ c) = c :: t := by
  induction l with
  | nil => simp at h
  | cons x t ih =>
    rw [List.dropWhile_cons]
    by_cases hx : x = c
    · subst hx
      simp
    · rw [if_pos (by simpa using hx)]
      rcases List.mem_cons.mp h with h | h
      · exact absurd h.symm hx
      · exact ih h

theorem uptoLast_ends (c : Char) (s : Str) (h : c ∈ s) :
    ∃ a, uptoLast c s = a ++ [c] := by
  obtain ⟨t, ht⟩ := dropWhile_eq_cons_of_mem c s.reverse (by simpa)
  refine ⟨t.reverse, ?_⟩
  rw [uptoLast, ht]
  simp

theorem afterLast_append (c : Char) (a x : Str) (ha : ∃ a', a = a' ++ [c])
    (hx : c ∉ x) : afterLast c (a ++ x) = x := by
  obtain ⟨a', rfl⟩ := ha
  unfold afterLast
  rw [List.reverse_append, List.reverse_append]
  have hall : ∀ y ∈ x.reverse, (fun z => decide (z ≠ c)) y = true := by
    intro y hy
    simp only [decide_eq_true_eq, ne_eq]
    rintro rfl
    exact hx (List.mem_reverse.mp hy)
  rw [takeWhile_append_of_all _ _ _ hall]
  simp

theorem splitTop_no_semi (u : Str) (h : u.contains ';' = false) :
    splitTop u = (u, []) := by
  unfold splitTop
  rw [h]
  simp

theorem splitTop_recomb (u : Str) (h2 : (splitTop u).2 ≠ []) :
    joinParams (splitTop u).1 (splitTop u).2 = u := by
  by_cases hc : u.contains ';' = true
  case neg =>
    rw [splitTop_no_semi u (by simpa using hc)] at h2 ⊢
    exact absurd rfl h2
  case pos =>
    simp only [splitTop, if_pos hc, splitparamsFn] at h2 ⊢
    by_cases hs : u.contains '/' = true
    case pos =>
      simp only [if_pos hs] at h2 ⊢
      by_cases hb : (afterLast '/' u).contains ';' = true
      case pos =>
        simp only [if_pos hb] at h2 ⊢
        simp only [joinParams, if_pos h2]
        rw [List.append_assoc, splitFirst_recomb ';' (afterLast '/' u)
          ((contains_iff _ _).mp hb)]
        exact uptoLast_append_afterLast '/' u
      case neg =>
        simp only [if_neg hb] at h2
        exact absurd rfl h2
    case neg =>
      simp only [if_neg hs] at h2 ⊢
      simp only [joinParams, if_pos h2]
      exact splitFirst_recomb ';' u ((contains_iff _ _).mp hc)

theorem splitTop_fst_stable (u : Str) (h2 : (splitTop u).2 = []) :
    splitTop ((splitTop u).1) = ((splitTop u).1, []) := by
  by_cases hc : u.contains ';' = true
  case neg =>
    rw [splitTop_no_semi u (by simpa using hc)]
    exact splitTop_no_semi u (by simpa using hc)
  case pos =>
    simp only [splitTop, if_pos hc, splitparamsFn] at h2 ⊢
    by_cases hs : u.contains '/' = true
    case pos =>
      simp only [if_pos hs] at h2 ⊢
      by_cases hb : (afterLast '/' u).contains ';' = true
      case pos =>
        simp only [if_pos hb] at h2 ⊢
        have hxb : ∀ a ∈ (splitFirst ';' (afterLast '/' u)).1, a ∈ afterLast '/' u :=
          fun a ha => mem_splitFirst_fst ha
        have hxs : ';' ∉ (splitFirst ';' (afterLast '/' u)).1 :=
          not_mem_splitFirst_fst ';' (afterLast '/' u)
        have hxsl : '/' ∉ (splitFirst ';' (afterLast '/' u)).1 :=
          fun hm => not_mem_afterLast '/' u (hxb '/' hm)
        have hends : ∃ a', uptoLast '/' u = a' ++ ['/'] :=
          uptoLast_ends '/' u ((contains_iff _ _).mp hs)
        have hafter : afterLast '/' (uptoLast '/' u ++ (splitFirst ';' (afterLast '/' u)).1) =
            (splitFirst ';' (afterLast '/' u)).1 :=
          afterLast_append '/' (uptoLast '/' u) _ hends hxsl
        have hPslash :
            (uptoLast '/' u ++ (splitFirst ';' (afterLast '/' u)).1).contains '/' = true := by
          rw [contains_iff]
          obtain ⟨a', ha'⟩ := hends
          rw [ha']
          simp
        by_cases hcf :
            (uptoLast '/' u ++ (splitFirst ';' (afterLast '/' u)).1).contains ';' = true
        case pos =>
          simp only [splitTop, if_pos hcf, splitparamsFn, if_pos hPslash, hafter]
          rw [if_neg (fun hh => hxs ((contains_iff _ _).mp hh))]
        case neg =>
          simp only [splitTop, if_neg hcf]
      case neg =>
        simp only [if_neg hb] at h2 ⊢
        simp only [splitTop, if_pos hc, splitparamsFn, if_pos hs, if_neg hb]
    case neg =>
      simp only [if_neg hs] at h2 ⊢
      exact splitTop_no_semi _
        ((contains_false_iff _ _).mpr (not_mem_splitFirst_fst ';' u))

theorem splitTop_idem (u : Str) :
    splitTop (joinParams (splitTop u).1 (splitTop u).2) = splitTop u := by
  by_cases h2 : (splitTop u).2 = []
  · rw [h2]
    have hjp : joinParams (splitTop u).1 [] = (splitTop u).1 := by simp [joinParams]
    rw [hjp, splitTop_fst_stable u h2]
    exact Prod.ext rfl h2.symm
  · rw [splitTop_recomb u h2]

/-- No ASCII tab, CR or LF: the characters `urlsplit` removes. -/
abbrev cleanCh (c : Char) : Prop := c ≠ '\t' ∧ c ≠ '\r' ∧ c ≠ '\n'

/-- The invariants satisfied by the split of every URL `normalize_url` emits:
an http(s) scheme, a nonempty netloc free of delimiters, a path that is empty
or absolute and free of `?`/`#`, a `#`-free query, and no fragment. -/
structure GoodSplit (x : SplitR) : Prop where
  scheme_ok : x.scheme = str "http" ∨ x.scheme = str "https"
  netloc_ne : x.netloc ≠ []
  netloc_ok : ∀ c ∈ x.netloc, netlocDelim c = false ∧ cleanCh c
  path_head : x.path = [] ∨ ∃ t, x.path = '/' :: t
  path_ok : ∀ c ∈ x.path, c ≠ '?' ∧ c ≠ '#' ∧ cleanCh c
  query_ok : ∀ c ∈ x.query, c ≠ '#' ∧ cleanCh c
  frag_nil : x.fragment = []

theorem lstripControl_cons (c : Char) (t : Str) (h : ¬ c.toNat ≤ 0x20) :
    lstripControl (c :: t) = c :: t := by
  simp [lstripControl, List.dropWhile_cons, h]

theorem cleanUrlChars_of (s : Str) (h : ∀ c ∈ s, cleanCh c) :
    cleanUrlChars s = s := by
  rw [cleanUrlChars, List.filter_eq_self]
  intro c hc
  obtain ⟨h1, h2, h3⟩ := h c hc
  simp [h1, h2, h3]

theorem schemeSplit_abs (scheme rest d : Str)
    (hs2 : ∀ c ∈ scheme, isSchemeChar c = true ∧ c ≠ ':')
    (hs3 : ∃ c t, scheme = c :: t ∧ (isAsciiCh c && c.isAlpha) = true)
    (hs4 : pyLower scheme = scheme) :
    schemeSplit (scheme ++ ':' :: rest) d = (scheme, rest) := by
  obtain ⟨c0, t0, rfl, hc0⟩ := hs3
  have hall : ∀ c ∈ c0 :: t0, (fun a => decide (a ≠ ':')) c = true := by
    intro c hc
    simp [(hs2 c hc).2]
  have hpre : (c0 :: t0 ++ ':' :: rest).takeWhile (fun a => decide (a ≠ ':')) = c0 :: t0 := by
    rw [takeWhile_append_of_all _ _ _ hall]
    simp [List.takeWhile_cons]
  unfold schemeSplit
  rw [hpre]
  rw [if_pos ?cond]
  case cond =>
    simp only [List.cons_append, Bool.and_eq_true, decide_eq_true_eq, List.all_eq_true,
      List.length_cons, List.length_append]
    refine ⟨⟨⟨by omega, by omega⟩, by simpa using hc0⟩, fun c hc => (hs2 c hc).1⟩
  rw [hs4]
  have hdrop : (c0 :: t0 ++ ':' :: rest).drop ((c0 :: t0).length + 1) = rest := by
    have he : c0 :: t0 ++ ':' :: rest = (c0 :: t0 ++ [':']) ++ rest := by simp
    have hl : (c0 :: t0).length + 1 = (c0 :: t0 ++ [':']).length := by simp
    rw [he, hl, List.drop_left]
  rw [hdrop]

theorem urlsplit_absolute (scheme netloc path query d : Str)
    (hs2 : ∀ c ∈ scheme, isSchemeChar c = true ∧ c ≠ ':' ∧ cleanCh c)
    (hs3 : ∃ c t, scheme = c :: t ∧ (isAsciiCh c && c.isAlpha) = true ∧ 0x20 < c.toNat)
    (hs4 : pyLower scheme = scheme)
    (hn : netloc ≠ []) (hnok : ∀ c ∈ netloc, netlocDelim c = false ∧ cleanCh c)
    (hph : path = [] ∨ ∃ t, path = '/' :: t)
    (hpok : ∀ c ∈ path, c ≠ '?' ∧ c ≠ '#' ∧ cleanCh c)
    (hqok : ∀ c ∈ query, c ≠ '#' ∧ cleanCh c) :
    urlsplit (scheme ++ ':' :: '/' :: '/' ::
        (netloc ++ (path ++ (if query ≠ [] then '?' :: query else [])))) d =
      ⟨scheme, netloc, path, query, []⟩ := by
  obtain ⟨c0, t0, hsch, hc0, hc0n⟩ := hs3
  have hqclean : ∀ c ∈ (if query ≠ [] then '?' :: query else []), c ≠ '#' ∧ cleanCh c := by
    intro c hc
    by_cases hq : query = []
    · rw [if_neg (by simp [hq])] at hc
      simp at hc
    · rw [if_pos hq] at hc
      rcases List.mem_cons.mp hc with rfl | hc
      · exact ⟨by decide, by decide, by decide, by decide⟩
      · exact hqok c hc
  have hfull : ∀ c ∈ scheme ++ ':' :: '/' :: '/' ::
      (netloc ++ (path ++ (if query ≠ [] then '?' :: query else []))), cleanCh c := by
    simp only [List.forall_mem_append, List.forall_mem_cons]
    refine ⟨fun c hc => (hs2 c hc).2.2, by decide, by decide, by decide,
      fun c hc => (hnok c hc).2, fun c hc => (hpok c hc).2.2,
      fun c hc => (hqclean c hc).2⟩
  have h1 : lstripControl (scheme ++ ':' :: '/' :: '/' ::
      (netloc ++ (path ++ (if query ≠ [] then '?' :: query else [])))) =
      scheme ++ ':' :: '/' :: '/' ::
        (netloc ++ (path ++ (if query ≠ [] then '?' :: query else []))) := by
    rw [hsch, List.cons_append]
    exact lstripControl_cons _ _ (by omega)
  have h2 : cleanUrlChars (scheme ++ ':' :: '/' :: '/' ::
      (netloc ++ (path ++ (if query ≠ [] then '?' :: query else [])))) =
      scheme ++ ':' :: '/' :: '/' ::
        (netloc ++ (path ++ (if query ≠ [] then '?' :: query else []))) :=
    cleanUrlChars_of _ hfull
  have h3 : schemeSplit (scheme ++ ':' :: '/' :: '/' ::
      (netloc ++ (path ++ (if query ≠ [] then '?' :: query else [])))) d =
      (scheme, '/' :: '/' ::
        (netloc ++ (path ++ (if query ≠ [] then '?' :: query else [])))) :=
    schemeSplit_abs _ _ _ (fun c hc => ⟨(hs2 c hc).1, (hs2 c hc).2.1⟩)
      ⟨c0, t0, hsch, hc0⟩ hs4
  have htw : (netloc ++ (path ++ (if query ≠ [] then '?' :: query else []))).takeWhile
      (fun c => !netlocDelim c) = netloc := by
    rw [takeWhile_append_of_all _ _ _ (fun c hc => by simp [(hnok c hc).1])]
    have hrest : ((path ++ (if query ≠ [] then '?' :: query else []))).takeWhile
        (fun c => !netlocDelim c) = [] := by
      rcases hph with rfl | ⟨t, rfl⟩
      · by_cases hq : query = []
        · rw [if_neg (by simp [hq])]
          rfl
        · rw [if_pos hq]
          simp [List.takeWhile_cons, netlocDelim]
      · simp [List.takeWhile_cons, netlocDelim]
    rw [hrest, List.append_nil]
  have hdw : (netloc ++ (path ++ (if query ≠ [] then '?' :: query else []))).dropWhile
      (fun c => !netlocDelim c) = path ++ (if query ≠ [] then '?' :: query else []) := by
    rw [dropWhile_append_of_all _ _ _ (fun c hc => by simp [(hnok c hc).1])]
    rcases hph with rfl | ⟨t, rfl⟩
    · by_cases hq : query = []
      · rw [if_neg (by simp [hq])]
        rfl
      · rw [if_pos hq]
        simp [List.dropWhile_cons, netlocDelim]
    · simp [List.dropWhile_cons, netlocDelim]
  have hnofrag : (path ++ (if query ≠ [] then '?' :: query else [])).contains '#' = false := by
    rw [contains_false_iff]
    intro hmem
    rcases List.mem_append.mp hmem with hmem | hmem
    · exact (hpok _ hmem).2.1 rfl
    · exact (hqclean _ hmem).1 rfl
  have h4 : netlocSplit ('/' :: '/' ::
      (netloc ++ (path ++ (if query ≠ [] then '?' :: query else [])))) =
      (netloc, path ++ (if query ≠ [] then '?' :: query else [])) := by
    unfold netlocSplit
    rw [if_pos (by simp [str, List.isPrefixOf] :
      ((str "//").isPrefixOf ('/' :: '/' ::
        (netloc ++ (path ++ (if query ≠ [] then '?' :: query else []))))) = true)]
    rw [show ('/' :: '/' ::
        (netloc ++ (path ++ (if query ≠ [] then '?' :: query else [])))).drop 2 =
        netloc ++ (path ++ (if query ≠ [] then '?' :: query else [])) from rfl]
    rw [htw, hdw]
  have h5 : fragSplit (path ++ (if query ≠ [] then '?' :: query else [])) =
      (path ++ (if query ≠ [] then '?' :: query else []), []) := by
    unfold fragSplit condSplit
    rw [if_neg (show ¬((path ++ (if query ≠ [] then '?' :: query else [])).contains '#' = true)
      from by rw [hnofrag]; simp)]
  have h6 : querySplit (path ++ (if query ≠ [] then '?' :: query else [])) = (path, query) := by
    unfold querySplit condSplit
    by_cases hq : query = []
    · subst hq
      have hqif : (if ([] : Str) ≠ [] then '?' :: ([] : Str) else []) = [] := by simp
      rw [hqif, List.append_nil]
      rw [if_neg (show ¬(path.contains '?' = true) from
        fun hc => (hpok _ ((contains_iff _ _).mp hc)).1 rfl)]
    · have hqif : (if query ≠ [] then '?' :: query else []) = '?' :: query := if_pos hq
      rw [hqif]
      rw [if_pos (show (path ++ '?' :: query).contains '?' = true from
        (contains_iff _ _).mpr (by simp))]
      rw [splitFirst_append '?' path query (fun hmem => (hpok _ hmem).1 rfl)]
  simp only [urlsplit, h1, h2, h3, h4, h5, h6]

theorem urlunsplit_shape (scheme netloc path query fragment : Str) (hn : netloc ≠ [])
    (hph : path = [] ∨ ∃ t, path = '/' :: t) (hs : scheme ≠ []) (hf : fragment = []) :
    urlunsplit ⟨scheme, netloc, path, query, fragment⟩ =
      scheme ++ ':' :: '/' :: '/' ::
        (netloc ++ (path ++ (if query ≠ [] then '?' :: query else []))) := by
  subst hf
  have h2s : str "//" = ['/', '/'] := rfl
  rcases hph with rfl | ⟨t, rfl⟩ <;> cases query <;>
    simp [urlunsplit, hn, hs, h2s, List.append_assoc]

/-- The central round trip: re-parsing the serialization of a well-formed
split recovers it exactly, for any default scheme. -/
theorem urlsplit_urlunsplit (x : SplitR) (hx : GoodSplit x) (d : Str) :
    urlsplit (urlunsplit x) d = x := by
  obtain ⟨scheme, netloc, path, query, fragment⟩ := x
  obtain ⟨hsch, hnne, hnok, hph, hpok, hqok, hfr⟩ := hx
  dsimp only at *
  subst hfr
  have hs : scheme ≠ [] := by rcases hsch with rfl | rfl <;> decide
  rw [urlunsplit_shape scheme netloc path query [] hnne hph hs rfl]
  apply urlsplit_absolute
  · rcases hsch with rfl | rfl <;> decide
  · rcases hsch with rfl | rfl
    · exact ⟨'h', ['t', 't', 'p'], rfl, by decide, by decide⟩
    · exact ⟨'h', ['t', 't', 'p', 's'], rfl, by decide, by decide⟩
  · rcases hsch with rfl | rfl <;> decide
  · exact hnne
  · exact hnok
  · exact hph
  · exact hpok
  · exact hqok

/-- Round trip at the `urlparse` level, additionally requiring the params
split of the rejoined path to be stable. -/
theorem urlparse_urlunparse (y : ParseR)
    (hx : GoodSplit ⟨y.scheme, y.netloc, joinParams y.path y.params, y.query, y.fragment⟩)
    (hp : splitTop (joinParams y.path y.params) = (y.path, y.params)) (d : Str) :
    urlparse (urlunparse y) d = y := by
  obtain ⟨scheme, netloc, path, params, query, fragment⟩ := y
  dsimp only at *
  unfold urlparse urlunparse
  rw [urlsplit_urlunsplit _ hx d]
  dsimp only
  rw [hp]

theorem schemeSplit_snd_mem {u d : Str} {c : Char} (h : c ∈ (schemeSplit u d).2) : c ∈ u := by
  simp only [schemeSplit] at h
  split_ifs at h with h1
  · exact List.mem_of_mem_drop h
  · exact h

theorem netlocSplit_fst_delim {u : Str} {c : Char} (h : c ∈ (netlocSplit u).1) :
    netlocDelim c = false := by
  unfold netlocSplit at h
  split_ifs at h with h1
  · have h2 := pred_of_mem_takeWhile h
    simpa using h2
  · simp at h

theorem netlocSplit_fst_mem {u : Str} {c : Char} (h : c ∈ (netlocSplit u).1) : c ∈ u := by
  unfold netlocSplit at h
  split_ifs at h with h1
  · exact List.mem_of_mem_drop (mem_of_mem_takeWhile h)
  · simp at h

theorem netlocSplit_snd_mem {u : Str} {c : Char} (h : c ∈ (netlocSplit u).2) : c ∈ u := by
  unfold netlocSplit at h
  split_ifs at h with h1
  · exact List.mem_of_mem_drop (mem_of_mem_dropWhile h)
  · exact h

theorem netlocSplit_snd_head {u : Str} (hne : (netlocSplit u).1 ≠ []) :
    (netlocSplit u).2 = [] ∨ ∃ c t, (netlocSplit u).2 = c :: t ∧ netlocDelim c = true := by
  unfold netlocSplit at hne ⊢
  split_ifs at hne ⊢ with h
  · rcases dropWhile_nil_or_head (fun c => !netlocDelim c) (u.drop 2) with h2 | ⟨c, t, h2, h3⟩
    · exact Or.inl h2
    · refine Or.inr ⟨c, t, h2, ?_⟩
      simpa using h3
  · simp at hne

theorem condSplit_fst_not (ch : Char) (u : Str) : ch ∉ (condSplit ch u).1 := by
  unfold condSplit
  split_ifs with h
  · exact not_mem_splitFirst_fst ch u
  · intro hm
    exact h ((contains_iff _ _).mpr hm)

theorem condSplit_fst_mem {ch : Char} {u : Str} {c : Char} (h : c ∈ (condSplit ch u).1) :
    c ∈ u := by
  unfold condSplit at h
  split_ifs at h with h1
  · exact mem_splitFirst_fst h
  · exact h

theorem condSplit_snd_mem {ch : Char} {u : Str} {c : Char} (h : c ∈ (condSplit ch u).2) :
    c ∈ u := by
  unfold condSplit at h
  split_ifs at h with h1
  · exact mem_splitFirst_snd h
  · simp at h

theorem condSplit_fst_cons (ch c0 : Char) (t : Str) (hne : ¬ c0 = ch) :
    (condSplit ch (c0 :: t)).1 = c0 :: (condSplit ch t).1 := by
  unfold condSplit
  by_cases h : (c0 :: t).contains ch = true
  · have ht : t.contains ch = true := by
      rw [contains_iff] at h ⊢
      rcases List.mem_cons.mp h with h2 | h2
      · exact absurd h2.symm hne
      · exact h2
    rw [if_pos h, if_pos ht]
    simp [splitFirst, List.takeWhile_cons, hne]
  · have ht : ¬ (t.contains ch = true) := by
      intro h2
      apply h
      rw [contains_iff] at h2 ⊢
      exact List.mem_cons_of_mem _ h2
    rw [if_neg h, if_neg ht]

theorem condSplit_fst_of_head (ch : Char) (t : Str) : (condSplit ch (ch :: t)).1 = [] := by
  unfold condSplit
  rw [if_pos ((contains_iff _ _).mpr (List.mem_cons_self _ _))]
  simp [splitFirst, List.takeWhile_cons]

theorem urlsplit_netloc_eq (url d : Str) :
    (urlsplit url d).netloc =
      (netlocSplit (schemeSplit (cleanUrlChars (lstripControl url)) d).2).1 := rfl

theorem urlsplit_path_eq (url d : Str) :
    (urlsplit url d).path =
      (condSplit '?' (condSplit '#'
        (netlocSplit (schemeSplit (cleanUrlChars (lstripControl url)) d).2).2).1).1 := rfl

theorem urlsplit_query_eq (url d : Str) :
    (urlsplit url d).query =
      (condSplit '?' (condSplit '#'
        (netlocSplit (schemeSplit (cleanUrlChars (lstripControl url)) d).2).2).1).2 := rfl

theorem mem_cleanUrlChars_clean {s : Str} {c : Char} (h : c ∈ cleanUrlChars s) : cleanCh c := by
  rw [cleanUrlChars] at h
  have h2 := (List.mem_filter.mp h).2
  simp at h2
  exact ⟨h2.1.1, h2.1.2, h2.2⟩

theorem urlsplit_netloc_clean (url d : Str) :
    ∀ c ∈ (urlsplit url d).netloc, netlocDelim c = false ∧ cleanCh c := by
  intro c hc
  rw [urlsplit_netloc_eq] at hc
  exact ⟨netlocSplit_fst_delim hc,
    mem_cleanUrlChars_clean (schemeSplit_snd_mem (netlocSplit_fst_mem hc))⟩

theorem urlsplit_path_clean (url d : Str) :
    ∀ c ∈ (urlsplit url d).path, c ≠ '?' ∧ c ≠ '#' ∧ cleanCh c := by
  intro c hc
  rw [urlsplit_path_eq] at hc
  have hq : c ≠ '?' := fun he => condSplit_fst_not '?' _ (he ▸ hc)
  have hf0 := condSplit_fst_mem hc
  have hh : c ≠ '#' := fun he => condSplit_fst_not '#' _ (he ▸ hf0)
  exact ⟨hq, hh, mem_cleanUrlChars_clean
    (schemeSplit_snd_mem (netlocSplit_snd_mem (condSplit_fst_mem hf0)))⟩

theorem urlsplit_query_clean (url d : Str) :
    ∀ c ∈ (urlsplit url d).query, c ≠ '#' ∧ cleanCh c := by
  intro c hc
  rw [urlsplit_query_eq] at hc
  have h1 := condSplit_snd_mem hc
  have hh : c ≠ '#' := fun he => condSplit_fst_not '#' _ (he ▸ h1)
  exact ⟨hh, mem_cleanUrlChars_clean
    (schemeSplit_snd_mem (netlocSplit_snd_mem (condSplit_fst_mem h1)))⟩

theorem urlsplit_path_head (url d : Str) (hn : (urlsplit url d).netloc ≠ []) :
    (urlsplit url d).path = [] ∨ ∃ t, (urlsplit url d).path = '/' :: t := by
  rw [urlsplit_netloc_eq] at hn
  rw [urlsplit_path_eq]
  rcases netlocSplit_snd_head hn with h2 | ⟨c, t, h2, hdel⟩
  · rw [h2]
    left
    rfl
  · rw [h2]
    have hdel' : (c = '/' ∨ c = '?') ∨ c = '#' := by simpa [netlocDelim] using hdel
    rcases hdel' with (rfl | rfl) | rfl
    · rw [condSplit_fst_cons '#' '/' t (by decide), condSplit_fst_cons '?' '/' _ (by decide)]
      exact Or.inr ⟨_, rfl⟩
    · rw [condSplit_fst_cons '#' '?' t (by decide), condSplit_fst_of_head]
      left
      rfl
    · rw [condSplit_fst_of_head]
      left
      rfl

theorem mem_splitTop_fst {u : Str} {c : Char} (h : c ∈ (splitTop u).1) : c ∈ u := by
  unfold splitTop at h
  split_ifs at h with h1
  · simp only [splitparamsFn] at h
    split_ifs at h with h2 h3
    · rcases List.mem_append.mp h with h4 | h4
      · exact mem_uptoLast h4
      · exact mem_afterLast (mem_splitFirst_fst h4)
    · exact h
    · exact mem_splitFirst_fst h
  · exact h

theorem mem_splitTop_snd {u : Str} {c : Char} (h : c ∈ (splitTop u).2) : c ∈ u := by
  unfold splitTop at h
  split_ifs at h with h1
  · simp only [splitparamsFn] at h
    split_ifs at h with h2 h3
    · exact mem_afterLast (mem_splitFirst_snd h)
    · simp at h
    · exact mem_splitFirst_snd h
  · simp at h

theorem splitTop_fst_head {u : Str} (hu : u = [] ∨ ∃ t, u = '/' :: t) :
    (splitTop u).1 = [] ∨ ∃ t, (splitTop u).1 = '/' :: t := by
  rcases hu with rfl | ⟨t, rfl⟩
  · left
    rfl
  · unfold splitTop
    split_ifs with hc
    · simp only [splitparamsFn]
      rw [if_pos ((contains_iff _ _).mpr (List.mem_cons_self _ _))]
      split_ifs with hb
      · obtain ⟨a, ha⟩ := uptoLast_ends '/' ('/' :: t) (List.mem_cons_self _ _)
        right
        cases a with
        | nil =>
          refine ⟨(splitFirst ';' (afterLast '/' ('/' :: t))).1, ?_⟩
          rw [ha]
          rfl
        | cons c a' =>
          have hrec := uptoLast_append_afterLast '/' ('/' :: t)
          rw [ha] at hrec
          have hc0 : c = '/' := by
            have h5 := congrArg List.head? hrec
            simpa using h5
          subst hc0
          refine ⟨a' ++ ['/'] ++ (splitFirst ';' (afterLast '/' ('/' :: t))).1, ?_⟩
          rw [ha]
          rfl
      · exact Or.inr ⟨t, rfl⟩
    · exact Or.inr ⟨t, rfl⟩

theorem mem_joinParams {p q : Str} {c : Char} (h : c ∈ joinParams p q) :
    c ∈ p ∨ c = ';' ∨ c ∈ q := by
  unfold joinParams at h
  split_ifs at h with hq
  · rcases List.mem_append.mp h with h1 | h1
    · exact Or.inl h1
    · rcases List.mem_cons.mp h1 with rfl | h1
      · exact Or.inr (Or.inl rfl)
      · exact Or.inr (Or.inr h1)
  · exact Or.inl h

theorem joinParams_splitTop_head (u : Str) (hu : u = [] ∨ ∃ t, u = '/' :: t) :
    joinParams (splitTop u).1 (splitTop u).2 = [] ∨
      ∃ t, joinParams (splitTop u).1 (splitTop u).2 = '/' :: t := by
  by_cases h2 : (splitTop u).2 = []
  · rw [joinParams, if_neg (by simp [h2])]
    exact splitTop_fst_head hu
  · rw [splitTop_recomb u h2]
    exact hu

theorem toNat_ofNat_lt (n : Nat) (h : n < 0xd800) : (Char.ofNat n).toNat = n := by
  have hv : n.isValidChar := Or.inl h
  rw [Char.ofNat, dif_pos hv]
  rfl

theorem toLower_eq_or (c : Char) :
    Char.toLower c = c ∨ (97 ≤ (Char.toLower c).toNat ∧ (Char.toLower c).toNat ≤ 122) := by
  simp only [Char.toLower]
  split_ifs with h
  · right
    rw [toNat_ofNat_lt (c.toNat + 32) (by omega)]
    omega
  · left
    rfl

theorem toLower_of_high (c : Char) (h : 90 < c.toNat) : Char.toLower c = c := by
  simp only [Char.toLower]
  rw [if_neg (by omega)]

theorem toLower_toLower (c : Char) : Char.toLower (Char.toLower c) = Char.toLower c := by
  rcases toLower_eq_or c with h | h
  · rw [h]
    exact h
  · exact toLower_of_high _ (by omega)

theorem toLower_ne (c d : Char) (hdn : d.toNat < 65 ∨ 122 < d.toNat) (hcd : c ≠ d) :
    Char.toLower c ≠ d := by
  rcases toLower_eq_or c with h | h
  · rw [h]
    exact hcd
  · intro he
    rw [he] at h
    omega

theorem pyLower_pyLower (s : Str) : pyLower (pyLower s) = pyLower s := by
  induction s with
  | nil => rfl
  | cons c t ih =>
    simp only [pyLower, List.map_cons] at ih ⊢
    rw [toLower_toLower, ih]

theorem pyLower_netloc_ok {n : Str} (h : ∀ c ∈ n, netlocDelim c = false ∧ cleanCh c) :
    ∀ c ∈ pyLower n, netlocDelim c = false ∧ cleanCh c := by
  intro c hc
  rw [pyLower, List.mem_map] at hc
  obtain ⟨a, ha, rfl⟩ := hc
  obtain ⟨h1, h2⟩ := h a ha
  have ha1 : (¬ a = '/' ∧ ¬ a = '?') ∧ ¬ a = '#' := by
    simpa [netlocDelim] using h1
  obtain ⟨hb1, hb2, hb3⟩ := h2
  refine ⟨?_, toLower_ne _ _ (Or.inl (by decide)) hb1,
    toLower_ne _ _ (Or.inl (by decide)) hb2, toLower_ne _ _ (Or.inl (by decide)) hb3⟩
  have g1 := toLower_ne a '/' (Or.inl (by decide)) ha1.1.1
  have g2 := toLower_ne a '?' (Or.inl (by decide)) ha1.1.2
  have g3 := toLower_ne a '#' (Or.inl (by decide)) ha1.2
  simp [netlocDelim, g1, g2, g3]

theorem mem_urlunsplit_frag (x : SplitR) (hf : x.fragment ≠ []) : '#' ∈ urlunsplit x := by
  simp only [urlunsplit]
  rw [if_pos hf]
  exact List.mem_append_right _ (List.mem_cons_self _ _)

theorem slash2_isPrefixOf_append (p q : Str)
    (hp : (str "//").isPrefixOf p = false)
    (hq : q = [] ∨ ∃ t, q = '?' :: t) :
    (str "//").isPrefixOf (p ++ q) = false := by
  match p with
  | [] =>
    rcases hq with rfl | ⟨t, rfl⟩
    · exact hp
    · simp [str, List.isPrefixOf]
  | [c] =>
    by_cases hc : c = '/'
    · subst hc
      rcases hq with rfl | ⟨t, rfl⟩
      · exact hp
      · simp [str, List.isPrefixOf]
    · rcases hq with rfl | ⟨t, rfl⟩ <;> simp [str, List.isPrefixOf, hc]
  | c1 :: c2 :: t =>
    simp only [str, List.isPrefixOf] at hp ⊢
    simpa using hp

theorem netloc_of_clean_url (scheme rest d : Str)
    (hsch : scheme = str "http" ∨ scheme = str "https")
    (hclean : ∀ c ∈ rest, cleanCh c) :
    (urlsplit (scheme ++ ':' :: rest) d).netloc = (netlocSplit rest).1 := by
  rw [urlsplit_netloc_eq]
  have hschc : ∀ c ∈ scheme, cleanCh c := by rcases hsch with rfl | rfl <;> decide
  have h1 : lstripControl (scheme ++ ':' :: rest) = scheme ++ ':' :: rest := by
    rcases hsch with rfl | rfl <;> simp +decide [lstripControl, str, List.dropWhile_cons]
  have h2 : cleanUrlChars (scheme ++ ':' :: rest) = scheme ++ ':' :: rest := by
    apply cleanUrlChars_of
    simp only [List.forall_mem_append, List.forall_mem_cons]
    exact ⟨hschc, by decide, hclean⟩
  have h3 : schemeSplit (scheme ++ ':' :: rest) d = (scheme, rest) := by
    apply schemeSplit_abs
    · rcases hsch with rfl | rfl <;> decide
    · rcases hsch with rfl | rfl
      · exact ⟨'h', ['t', 't', 'p'], rfl, by decide⟩
      · exact ⟨'h', ['t', 't', 'p', 's'], rfl, by decide⟩
    · rcases hsch with rfl | rfl <;> decide
  rw [h1, h2, h3]

theorem urlsplit_no_netloc (scheme path query d : Str)
    (hsch : scheme = str "http" ∨ scheme = str "https")
    (hpc : ∀ c ∈ path, cleanCh c) (hqc : ∀ c ∈ query, cleanCh c) :
    (urlsplit (urlunsplit ⟨scheme, [], path, query, []⟩) d).netloc = [] := by
  have hs : scheme ≠ [] := by rcases hsch with rfl | rfl <;> decide
  have hqopt : ∀ c ∈ (if query ≠ [] then '?' :: query else []), cleanCh c := by
    split_ifs with h
    · intro c hc
      rcases List.mem_cons.mp hc with rfl | hc
      · decide
      · exact hqc c hc
    · intro c hc
      simp at hc
  have hqshape : (if query ≠ [] then '?' :: query else []) = [] ∨
      ∃ t, (if query ≠ [] then '?' :: query else []) = '?' :: t := by
    cases query with
    | nil => left; simp
    | cons q qs => right; exact ⟨q :: qs, by simp⟩
  by_cases hpp : (str "//").isPrefixOf path = true
  · obtain ⟨t, ht⟩ := List.isPrefixOf_iff_prefix.mp hpp
    have hpath : path = '/' :: '/' :: t := ht.symm
    subst hpath
    have hshape : urlunsplit ⟨scheme, [], '/' :: '/' :: t, query, []⟩ =
        scheme ++ ':' :: ('/' :: '/' ::
          (('/' :: '/' :: t) ++ (if query ≠ [] then '?' :: query else []))) := by
      cases query <;> simp [urlunsplit, hs, str, List.isPrefixOf, List.append_assoc]
    rw [hshape, netloc_of_clean_url _ _ d hsch ?_]
    · simp +decide [netlocSplit, str, List.isPrefixOf, netlocDelim, List.takeWhile_cons]
    · intro c hc
      rcases List.mem_cons.mp hc with rfl | hc
      · decide
      · rcases List.mem_cons.mp hc with rfl | hc
        · decide
        · rcases List.mem_append.mp hc with hc | hc
          · exact hpc c hc
          · exact hqopt c hc
  · have hpp' : (str "//").isPrefixOf path = false := by
      cases hb : (str "//").isPrefixOf path
      · rfl
      · exact absurd hb hpp
    have hshape : urlunsplit ⟨scheme, [], path, query, []⟩ =
        scheme ++ ':' :: (path ++ (if query ≠ [] then '?' :: query else [])) := by
      cases query <;> simp [urlunsplit, hs, hpp', List.append_assoc]
    rw [hshape, netloc_of_clean_url _ _ d hsch ?_]
    · rw [netlocSplit,
        if_neg (by rw [slash2_isPrefixOf_append path _ hpp' hqshape]; simp)]
    · intro c hc
      rcases List.mem_append.mp hc with hc | hc
      · exact hpc c hc
      · exact hqopt c hc

theorem urlparse_netloc_eq (url d : Str) :
    (urlparse url d).netloc = (urlsplit url d).netloc := rfl

theorem urlunparse_eq (q : ParseR) :
    urlunparse q = urlunsplit
      ⟨q.scheme, q.netloc, joinParams q.path q.params, q.query, q.fragment⟩ := rfl

theorem normalize_shape {base link r : Str} (h : normalize_url base link = some r) :
    ∃ u : Str,
      ((urlparse u []).scheme = str "http" ∨ (urlparse u []).scheme = str "https") ∧
      r = urlunparse ⟨(urlparse u []).scheme, pyLower (urlparse u []).netloc,
        (urlparse u []).path, (urlparse u []).params, (urlparse u []).query,
        (urlparse u []).fragment⟩ := by
  simp only [normalize_url] at h
  split_ifs at h with e1 e2 e3 e4 e5 <;>
    first
      | exact Option.noConfusion h
      | exact ⟨_, by assumption, (Option.some.inj h).symm⟩

set_option maxHeartbeats 2000000 in
/-- C4 (amended): normalization is idempotent on its own successful outputs
`r` provided `r` is strip-stable, contains no `%` and no `#`, and still parses
with a nonempty netloc: then `normalize_url r r = some r`.  (The unconditional
claim is false: percent-decoding is reapplied on each pass, see
`c4_counterexample`.) -/
theorem c4_normalize_idempotent_amended (base link r : Str)
    (h : normalize_url base link = some r)
    (hstrip : pyStrip r = r)
    (hpct : r.contains '%' = false)
    (hhash : r.contains '#' = false)
    (hhost : (urlparse r []).netloc ≠ []) :
    normalize_url r r = some r := by
  obtain ⟨u, hsch, hr⟩ := normalize_shape h
  have hPpath : (urlparse u []).path = (splitTop (urlsplit u []).path).1 := rfl
  have hPparams : (urlparse u []).params = (splitTop (urlsplit u []).path).2 := rfl
  have hPnet : (urlparse u []).netloc = (urlsplit u []).netloc := rfl
  have hfr : (urlparse u []).fragment = [] := by
    by_contra hne
    have hmem : '#' ∈ r := by
      rw [hr, urlunparse_eq]
      exact mem_urlunsplit_frag _ hne
    exact (contains_false_iff _ _).mp hhash hmem
  have hclean_path : ∀ c ∈ joinParams (urlparse u []).path (urlparse u []).params,
      cleanCh c := by
    intro c hc
    rcases mem_joinParams hc with h1 | rfl | h1
    · exact (urlsplit_path_clean u [] c (mem_splitTop_fst (hPpath ▸ h1))).2.2
    · decide
    · exact (urlsplit_path_clean u [] c (mem_splitTop_snd (hPparams ▸ h1))).2.2
  have hclean_q : ∀ c ∈ (urlparse u []).query, cleanCh c :=
    fun c hc => (urlsplit_query_clean u [] c hc).2
  have hnl : pyLower (urlparse u []).netloc ≠ [] := by
    intro h0
    apply hhost
    rw [hr, urlparse_netloc_eq, urlunparse_eq]
    dsimp only
    rw [h0, hfr]
    exact urlsplit_no_netloc _ _ _ [] hsch hclean_path hclean_q
  have hnet0 : (urlparse u []).netloc ≠ [] := by
    intro h0
    apply hnl
    rw [h0]
    rfl
  have hgs : GoodSplit ⟨(urlparse u []).scheme, pyLower (urlparse u []).netloc,
      joinParams (urlparse u []).path (urlparse u []).params, (urlparse u []).query,
      (urlparse u []).fragment⟩ := by
    refine ⟨hsch, hnl, ?_, ?_, ?_, ?_, hfr⟩
    · exact pyLower_netloc_ok (fun c hc => urlsplit_netloc_clean u [] c hc)
    · exact joinParams_splitTop_head (urlsplit u []).path
        (urlsplit_path_head u [] (fun h0 => hnet0 (hPnet.trans h0)))
    · intro c hc
      rcases mem_joinParams hc with h1 | rfl | h1
      · exact urlsplit_path_clean u [] c (mem_splitTop_fst (hPpath ▸ h1))
      · exact ⟨by decide, by decide, by decide⟩
      · exact urlsplit_path_clean u [] c (mem_splitTop_snd (hPparams ▸ h1))
    · exact urlsplit_query_clean u []
  have hstab : splitTop (joinParams (urlparse u []).path (urlparse u []).params) =
      ((urlparse u []).path, (urlparse u []).params) := by
    rw [hPpath, hPparams]
    exact (splitTop_idem (urlsplit u []).path).trans Prod.mk.eta.symm
  have hround : ∀ d, urlparse r d = ⟨(urlparse u []).scheme, pyLower (urlparse u []).netloc,
      (urlparse u []).path, (urlparse u []).params, (urlparse u []).query,
      (urlparse u []).fragment⟩ := by
    intro d
    rw [hr]
    exact urlparse_urlunparse ⟨(urlparse u []).scheme, pyLower (urlparse u []).netloc,
      (urlparse u []).path, (urlparse u []).params, (urlparse u []).query,
      (urlparse u []).fragment⟩ hgs hstab d
  have hsne : (urlparse u []).scheme ≠ [] := by
    rcases hsch with h1 | h1 <;> rw [h1] <;> decide
  have hrshape : r = (urlparse u []).scheme ++ ':' :: '/' :: '/' ::
      (pyLower (urlparse u []).netloc ++
        (joinParams (urlparse u []).path (urlparse u []).params ++
          (if (urlparse u []).query ≠ [] then '?' :: (urlparse u []).query else []))) := by
    rw [hr, urlunparse_eq]
    dsimp only
    exact urlunsplit_shape _ _ _ _ _ hgs.netloc_ne hgs.path_head hsne hgs.frag_nil
  have hrne : r ≠ [] := by
    intro h0
    apply hhost
    rw [h0]
    rfl
  have hjoin : urljoin r r = r := by
    have hrel : uses_relative.contains (urlparse u []).scheme = true := by
      rcases hsch with h1 | h1 <;> rw [h1] <;> decide
    have hnetk : uses_netloc.contains (urlparse u []).scheme = true := by
      rcases hsch with h1 | h1 <;> rw [h1] <;> decide
    simp only [urljoin]
    rw [if_neg hrne, if_neg hrne, hround []]
    dsimp only
    rw [hround ((urlparse u []).scheme)]
    dsimp only
    rw [if_neg (by push_neg; exact ⟨rfl, hrel⟩), if_pos ⟨hnetk, hnl⟩]
    exact hr.symm
  have hdfr : urldefrag r = r := by
    rw [urldefrag, if_neg (by rw [hhash]; exact Bool.false_ne_true)]
  have hunq : unquote r = r := by
    rw [unquote, if_neg (by rw [hpct]; exact Bool.false_ne_true)]
  simp only [normalize_url]
  rw [if_neg hrne, hstrip]
  rw [if_neg (show ¬((str "javascript:").isPrefixOf (pyLower r) = true ∨
      (str "mailto:").isPrefixOf (pyLower r) = true ∨
      (str "tel:").isPrefixOf (pyLower r) = true) from by
    rw [hrshape]
    rcases hsch with h1 | h1 <;> rw [h1] <;>
      simp +decide [pyLower, str, List.isPrefixOf, Char.toLower])]
  have hrm : repairMatch r = false := by
    rw [hrshape]
    rcases hsch with h1 | h1 <;> rw [h1] <;>
      simp +decide [repairMatch, str, List.isPrefixOf]
  rw [if_neg (show ¬(repairMatch r = true) from by simp [hrm])]
  rw [hjoin, hdfr, hunq, hround []]
  dsimp only
  rw [if_pos hsch, pyLower_pyLower]
  rw [← hr]

/-- C4 counterexample: `normalize_url` percent-decodes once per call, so the
claimed unconditional idempotence fails: normalizing `http://h/%2541` yields
`http://h/%41`, and re-normalizing that output (with itself as base) yields
`http://h/A`, not the first output. -/
theorem c4_counterexample :
    normalize_url (str "http://h/") (str "http://h/%2541") = some (str "http://h/%41") ∧
    normalize_url (str "http://h/%41") (str "http://h/%41") = some (str "http://h/A") ∧
    some (str "http://h/A") ≠ some (str "http://h/%41") := by
  refine ⟨by decide, by decide, by decide⟩

/-- C4 witness: the amended idempotence theorem applied to the concrete
normalization output `http://h/a`, whose hypotheses (strip-stable, no `%`, no
`#`, nonempty netloc) all hold by computation. -/
theorem c4_normalize_idempotent_amended_witness :
    normalize_url (str "http://h/") (str "http://h/a") = some (str "http://h/a") ∧
    pyStrip (str "http://h/a") = str "http://h/a" ∧
    (str "http://h/a").contains '%' = false ∧
    (str "http://h/a").contains '#' = false ∧
    (urlparse (str "http://h/a") []).netloc ≠ [] ∧
    normalize_url (str "http://h/a") (str "http://h/a") = some (str "http://h/a") :=
  ⟨by decide, by decide, by decide, by decide, by decide,
    c4_normalize_idempotent_amended (str "http://h/") (str "http://h/a") (str "http://h/a")
      (by decide) (by decide) (by decide) (by decide) (by decide)⟩
